import Mathlib

/-!
Shallow embedding of the `youtube-exporter` repository's core logic
(`src/youtube_exporter/youtube_api.py`, `sheets_writer.py`, `exporter.py`)
together with proofs about the embedded functions.

Python strings are modelled as `List Char` (with `String` wrappers at the
boundaries); the regular-expression searches of the source are modelled by
explicit leftmost-match scanning functions; upstream network responses are
modelled as explicit data passed to the embedded functions.
-/

namespace YoutubeExporter

/-! ## Character classes used by the source's regular expressions -/

/-- The character class `[A-Za-z0-9_-]` (YouTube id characters). -/
def isIdChar (c : Char) : Bool :=
  c.isAlpha || c.isDigit || c = '_' || c = '-'

/-- The character class `[A-Za-z0-9_.-]` (handle / username characters). -/
def isHandleChar (c : Char) : Bool :=
  c.isAlpha || c.isDigit || c = '.' || c = '_' || c = '-'

/-- Python whitespace as stripped by `str.strip()` (ASCII part). -/
def isPySpace (c : Char) : Bool :=
  c = ' ' || c = '\t' || c = '\n' || c = '\r' || c = '\x0b' || c = '\x0c'

/-- Model of Python `str.strip()` on a character list. -/
def pyStrip (l : List Char) : List Char :=
  (l.dropWhile isPySpace).reverse.dropWhile isPySpace |>.reverse

/-! ## Leftmost regex-search scaffolding

`re.search` tries to match the pattern at every position of the string, left
to right, and returns the first success.  `findMap f l` applies the
position-matcher `f` to every suffix of `l` (longest suffix first, i.e.
leftmost position first) and returns the first success. -/

/-- Leftmost-position search: apply `f` to each suffix of the input in order
(including the empty suffix) and return the first `some`. -/
def findMap (f : List Char → Option α) : List Char → Option α
  | [] => f []
  | c :: rest =>
    match f (c :: rest) with
    | some r => some r
    | none => findMap f rest

/-- Strip a literal pattern from the front of the input; `some rest` on
success. -/
def stripLit : List Char → List Char → Option (List Char)
  | [], l => some l
  | _ :: _, [] => none
  | p :: ps, c :: cs => if p = c then stripLit ps cs else none

/-! ## `parse_channel_identifier` (youtube_api.py lines 49-74)

The Python function returns a one-key dict; we model it as a record with
four optional fields, exactly one of which is populated. -/

/-- The one-key dict returned by `parse_channel_identifier`: at most one of
the four keys `id`, `forHandle`, `forUsername`, `customUrl` is present. -/
structure Ident where
  id : Option String
  forHandle : Option String
  forUsername : Option String
  customUrl : Option String
deriving DecidableEq, Repr

/-- The dict `\x7b"id": v\x7d`. -/
def Ident.mkId (v : String) : Ident := ⟨some v, none, none, none⟩

/-- The dict with the single key `forHandle`. -/
def Ident.mkHandle (v : String) : Ident := ⟨none, some v, none, none⟩

/-- The dict with the single key `forUsername`. -/
def Ident.mkUsername (v : String) : Ident := ⟨none, none, some v, none⟩

/-- The dict with the single key `customUrl`. -/
def Ident.mkCustom (v : String) : Ident := ⟨none, none, none, some v⟩

/-- Number of populated keys of an `Ident`. -/
def Ident.keyCount (i : Ident) : Nat :=
  (if i.id.isSome then 1 else 0) + (if i.forHandle.isSome then 1 else 0) +
    (if i.forUsername.isSome then 1 else 0) + (if i.customUrl.isSome then 1 else 0)

/-- Model of `re.match(r"^UC[a-zA-Z0-9_-]\x7b20,\x7d$", s)`: the whole (stripped) input is
`UC` followed by at least 20 id characters. -/
def isUCId (l : List Char) : Bool :=
  match l with
  | 'U' :: 'C' :: rest => decide (20 ≤ rest.length) && rest.all isIdChar
  | _ => false

/-- Position matcher for a literal followed by a captured nonempty greedy
run of characters of class `p` (the shape `lit(p+)` shared by the URL
regexes of `parse_channel_identifier`). -/
def litCapture (lit : List Char) (p : Char → Bool) (l : List Char) : Option (List Char) :=
  match stripLit lit l with
  | none => none
  | some rest =>
    let body := rest.takeWhile p
    if body.isEmpty then none else some body

/-- Position matcher for `(?:youtube\.com|youtu\.be)/(@[A-Za-z0-9_.-]+)`:
at this position the input starts with `youtube.com/@` or `youtu.be/@`
followed by at least one handle character; the capture is `@` plus the
maximal run of handle characters.  (The regex alternation is equivalent:
the two domain literals can never both match at one position.) -/
def handleUrlAt (l : List Char) : Option (List Char) :=
  match litCapture "youtube.com/@".data isHandleChar l with
  | some body => some ('@' :: body)
  | none =>
    match litCapture "youtu.be/@".data isHandleChar l with
    | some body => some ('@' :: body)
    | none => none

/-- Position matcher for `youtube\.com/channel/(UC[a-zA-Z0-9_-]{20,})`. -/
def channelUrlAt (l : List Char) : Option (List Char) :=
  match stripLit "youtube.com/channel/UC".data l with
  | none => none
  | some rest =>
    let body := rest.takeWhile isIdChar
    if 20 ≤ body.length then some ('U' :: 'C' :: body) else none

/-- Position matcher for `youtube\.com/user/([A-Za-z0-9_.-]+)`. -/
def userUrlAt (l : List Char) : Option (List Char) :=
  litCapture "youtube.com/user/".data isHandleChar l

/-- Position matcher for `youtube\.com/c/([A-Za-z0-9_.-]+)`. -/
def customUrlAt (l : List Char) : Option (List Char) :=
  litCapture "youtube.com/c/".data isHandleChar l

/-- Embedding of `parse_channel_identifier` (youtube_api.py lines 49-74). -/
def parse_channel_identifier (channel_input : String) : Ident :=
  let s := pyStrip channel_input.data
  if s.head? = some '@' then .mkHandle s.asString
  else if isUCId s then .mkId s.asString
  else match findMap handleUrlAt s with
  | some h => .mkHandle h.asString
  | none =>
    match findMap channelUrlAt s with
    | some i => .mkId i.asString
    | none =>
      match findMap userUrlAt s with
      | some u => .mkUsername u.asString
      | none =>
        match findMap customUrlAt s with
        | some c => .mkCustom c.asString
        | none => .mkUsername s.asString

/-! ## Declarative URL-segment conditions (for the classification theorem)

Each condition states, as a plain existential over substrings, that the
corresponding regular expression of `parse_channel_identifier` has a match
somewhere in the input. -/

/-- The input contains `youtube.com/@` or `youtu.be/@` followed by at least
one handle character (the condition under which the regex
`(?:youtube\.com|youtu\.be)/(@[A-Za-z0-9_.-]+)` matches). -/
def HandleUrlCond (s : List Char) : Prop :=
  ∃ c, isHandleChar c = true ∧
    (("youtube.com/@".data ++ [c]) <:+: s ∨ ("youtu.be/@".data ++ [c]) <:+: s)

/-- The input contains `youtube.com/channel/UC` followed by at least 20 id
characters. -/
def ChannelUrlCond (s : List Char) : Prop :=
  ∃ body : List Char, body.length = 20 ∧ body.all isIdChar = true ∧
    ("youtube.com/channel/UC".data ++ body) <:+: s

/-- The input contains `youtube.com/user/` followed by at least one
username character. -/
def UserUrlCond (s : List Char) : Prop :=
  ∃ c, isHandleChar c = true ∧ ("youtube.com/user/".data ++ [c]) <:+: s

/-- The input contains `youtube.com/c/` followed by at least one custom-URL
character. -/
def CustomUrlCond (s : List Char) : Prop :=
  ∃ c, isHandleChar c = true ∧ ("youtube.com/c/".data ++ [c]) <:+: s

/-! ## `resolve_channel_id` (youtube_api.py lines 127-164)

The upstream read API is modelled as response data: for each query string,
the list of item channel ids the corresponding endpoint would return.  The
embedding also counts the calls made to each endpoint. -/

/-- Upstream responses used during channel resolution: items returned by
`channels().list(forHandle=…)`, `channels().list(forUsername=…)`, and
`search().list(q=…, type="channel", maxResults=1)`; each item reduced to
the channel id the code extracts from it. -/
structure ResolveEnv where
  channelsByHandle : String → List String
  channelsByUsername : String → List String
  searchChannels : String → List String

/-- Number of calls made to each endpoint during one resolution. -/
structure CallCounts where
  handleCalls : Nat
  usernameCalls : Nat
  searchCalls : Nat
deriving DecidableEq, Repr

/-- Embedding of `resolve_channel_id` (youtube_api.py lines 127-164) on the
success path of the HTTP layer, returning the result together with the
number of calls made to each endpoint. -/
def resolve_channel_id (env : ResolveEnv) (ident : Ident) :
    Except String String × CallCounts :=
  match ident.id with
  | some i => (.ok i, ⟨0, 0, 0⟩)
  | none =>
    match ident.forHandle with
    | some h =>
      match env.channelsByHandle h with
      | [] => (.error "Channel not found for handle", ⟨1, 0, 0⟩)
      | c :: _ => (.ok c, ⟨1, 0, 0⟩)
    | none =>
      match ident.forUsername with
      | some u =>
        match env.channelsByUsername u with
        | c :: _ => (.ok c, ⟨0, 1, 0⟩)
        | [] =>
          match env.searchChannels u with
          | [] => (.error "Channel not found", ⟨0, 1, 1⟩)
          | c :: _ => (.ok c, ⟨0, 1, 1⟩)
      | none =>
        match ident.customUrl with
        | some q =>
          match env.searchChannels q with
          | [] => (.error "Channel not found for custom url", ⟨0, 0, 1⟩)
          | c :: _ => (.ok c, ⟨0, 0, 1⟩)
        | none => (.error "Unsupported channel identifier", ⟨0, 0, 0⟩)

/-- A concrete environment whose username lookup is empty and whose keyword
search returns one channel (used to instantiate the fallback theorem). -/
def testEnvNoUser : ResolveEnv :=
  ⟨fun _ => [], fun _ => [], fun _ => ["UCsearchhit"]⟩

/-! ## `list_upload_video_ids` (youtube_api.py lines 181-211)

The upstream playlist pagination is modelled as the finite sequence of
pages the API returns, in order; one page is consumed per
`playlistItems().list` request.  A page's continuation token is absent
(`None`) or a string; Python's `if not page_token` treats both `None` and
`""` as the end of pagination. -/

/-- One page of a `playlistItems().list` response: the `videoId`s of its
items and its `nextPageToken`. -/
structure Page where
  items : List String
  nextPageToken : Option String

/-- Python truthiness of `resp.get("nextPageToken")`: pagination continues
only for a non-`None`, non-empty token. -/
def Page.hasNext (p : Page) : Bool :=
  match p.nextPageToken with
  | none => false
  | some t => !(t.isEmpty)

/-- One consumed page, as observed at the HTTP boundary: the `maxResults`
value sent with the request and the number of ids appended from the
response. -/
structure PageFetch where
  size : Int
  got : Nat
deriving DecidableEq, Repr

/-- Total number of ids appended over a trace of page fetches. -/
def traceGot (tr : List PageFetch) : Nat :=
  (tr.map PageFetch.got).sum

/-- The inner `for it in resp.get("items", [])` loop of
`list_upload_video_ids`: append ids one at a time; `inl` is the early
`return` taken as soon as the accumulated count reaches `max_videos`,
`inr` means the page was exhausted and the outer loop continues. -/
def appendUpTo (maxVideos : Int) (acc : List String) :
    List String → List String ⊕ List String
  | [] => .inr acc
  | v :: vs =>
    if maxVideos ≤ (acc ++ [v]).length then .inl (acc ++ [v])
    else appendUpTo maxVideos (acc ++ [v]) vs

/-- The `while True` loop of `list_upload_video_ids`, consuming the
remaining upstream pages; returns the accumulated ids and the trace of
page requests made.  The page list is the finite sequence of responses the
upstream would supply; when it is exhausted the model ends pagination (the
theorems quantify over the requests actually issued). -/
def listGo (maxVideos : Int) (acc : List String) : List Page → List String × List PageFetch
  | [] => (acc, [])
  | p :: ps =>
    if maxVideos - acc.length ≤ 0 then (acc, [])
    else
      match appendUpTo maxVideos acc p.items with
      | .inl acc' => (acc', [⟨min 50 (maxVideos - acc.length), acc'.length - acc.length⟩])
      | .inr acc' =>
        if p.hasNext then
          let r := listGo maxVideos acc' ps
          (r.1, ⟨min 50 (maxVideos - acc.length), acc'.length - acc.length⟩ :: r.2)
        else (acc', [⟨min 50 (maxVideos - acc.length), acc'.length - acc.length⟩])

/-- Embedding of `list_upload_video_ids` (youtube_api.py lines 181-211) over
an upstream page sequence: the returned video ids together with the trace
of page requests issued. -/
def list_upload_video_ids (pages : List Page) (max_videos : Int) :
    List String × List PageFetch :=
  listGo max_videos [] pages

/-- A concrete two-page upstream sequence used to instantiate the
pagination theorems. -/
def pagesEx : List Page :=
  [⟨["a1", "b2"], some "TOK"⟩, ⟨["c3", "d4"], none⟩]

/-! ## Error classifier (`_http_error_reason`, `_raise_friendly_http_error`,
youtube_api.py lines 25-46)

The HTTP failure payload is modelled as the decoded Python value:
`Option.none` models content that is not valid JSON (`json.loads` raises,
the `except` swallows it); `some v` models the decoded value.  Every
exception inside the `try` of `_http_error_reason` (attribute errors from
`.get` on non-dicts included) degrades to the empty string, exactly as the
blanket `except Exception` does. -/

/-- Decoded Python values (the shapes `json.loads` can produce). -/
inductive PyVal where
  | none
  | bool (b : Bool)
  | int (n : Int)
  | str (s : String)
  | list (items : List PyVal)
  | dict (fields : List (String × PyVal))
deriving Repr

mutual

/-- Python `repr` of a decoded value (string-escape sequences inside nested
strings are not modelled; the classifier never depends on them). -/
def pyRepr : PyVal → String
  | .none => "None"
  | .bool true => "True"
  | .bool false => "False"
  | .int n => toString n
  | .str s => "'" ++ s ++ "'"
  | .list items => "[" ++ pyReprItems items ++ "]"
  | .dict fields => "\x7b" ++ pyReprFields fields ++ "\x7d"

/-- Comma-joined `repr`s of list items. -/
def pyReprItems : List PyVal → String
  | [] => ""
  | [v] => pyRepr v
  | v :: rest => pyRepr v ++ ", " ++ pyReprItems rest

/-- Comma-joined `repr`s of dict entries. -/
def pyReprFields : List (String × PyVal) → String
  | [] => ""
  | [(k, v)] => "'" ++ k ++ "': " ++ pyRepr v
  | (k, v) :: rest => "'" ++ k ++ "': " ++ pyRepr v ++ ", " ++ pyReprFields rest

end

/-- Python `str()` of a decoded value. -/
def pyStr : PyVal → String
  | .str s => s
  | v => pyRepr v

/-- Python truthiness of a decoded value. -/
def pyTruthy : PyVal → Bool
  | .none => false
  | .bool b => b
  | .int n => decide (n ≠ 0)
  | .str s => !(s.isEmpty)
  | .list items => !(items.isEmpty)
  | .dict fields => !(fields.isEmpty)

/-- Python `dict` lookup (`d.get(k)` without default). -/
def pyLookup (fields : List (String × PyVal)) (k : String) : Option PyVal :=
  (fields.find? (fun kv => kv.1 = k)).map (fun kv => kv.2)

/-- Embedding of `_http_error_reason` (youtube_api.py lines 25-33).
`payload = Option.none` models malformed (non-JSON) error content. -/
def http_error_reason (payload : Option PyVal) : String :=
  match payload with
  | Option.none => ""
  | some data =>
    match data with
    | .dict fields =>
      match (pyLookup fields "error").getD (.dict []) with
      | .dict efields =>
        match (pyLookup efields "errors").getD (.list []) with
        | .list (e0 :: _) =>
          match e0 with
          | .dict e0fields =>
            let r := (pyLookup e0fields "reason").getD .none
            pyStr (if pyTruthy r then r else .str "")
          | _ => ""
        | .list [] => ""
        | _ => ""
      | _ => ""
    | _ => ""

/-- The error taxonomy relevant to the classifier (`QuotaExceededError`
and `FriendlyError` from errors.py), with the raised message. -/
inductive ExportError where
  | quotaExceeded (msg : String)
  | generic (msg : String)
deriving DecidableEq, Repr

/-- Remediation message raised with `QuotaExceededError`
(youtube_api.py lines 41-43). -/
def quotaExceededMsg : String :=
  "YouTube API quota exceeded. Reduce max videos, wait for quota reset, or use a new Google Cloud project and API key."

/-- Python `str()` of `getattr(err.resp, "status", None)` as interpolated by the
f-string. -/
def statusRepr : Option Int → String
  | Option.none => "None"
  | some n => toString n

/-- Embedding of `_raise_friendly_http_error` (youtube_api.py lines
36-46): the error it raises, as a value. -/
def raise_friendly_http_error (payload : Option PyVal) (status : Option Int)
    (context : String) : ExportError :=
  let reason := http_error_reason payload
  if reason = "quotaExceeded" then .quotaExceeded quotaExceededMsg
  else
    .generic ("API error while " ++ context ++ ". Status " ++ statusRepr status
      ++ ". Reason " ++ (if reason.isEmpty then "unknown" else reason))

/-! ## Transcript fetching (`download_caption_track`,
`get_transcript_official`, youtube_api.py lines 242-278)

The authorized session is modelled as `Option TranscriptEnv`: `none` is
the `youtube_oauth is None` case.  The environment gives, per video id,
the caption-track listing outcome and, per caption id, the download
outcome; `.error ()` models an upstream `HttpError`.  The embedding also
returns the number of upstream calls made. -/

/-- One caption track as used by the selection logic: its `id` and its
`snippet.language`. -/
structure CaptionTrack where
  id : String
  language : String
deriving DecidableEq, Repr

/-- Upstream caption endpoints: listing by video id, download by caption
id; `.error ()` models an `HttpError`. -/
structure TranscriptEnv where
  listResult : String → Except Unit (List CaptionTrack)
  downloadResult : String → Except Unit String

/-- The `score` key function of `get_transcript_official`: 0 for a
preferred language, 1 otherwise. -/
def score (prefer_langs : List String) (t : CaptionTrack) : Nat :=
  if t.language ∈ prefer_langs then 0 else 1

/-- Stable insertion used to model Python's stable `sorted(…, key=…)`:
an element is placed before the first element of strictly greater or equal
key, so earlier elements win ties. -/
def pyInsert (key : CaptionTrack → Nat) (a : CaptionTrack) :
    List CaptionTrack → List CaptionTrack
  | [] => [a]
  | b :: bs => if key a ≤ key b then a :: b :: bs else b :: pyInsert key a bs

/-- Model of Python's stable `sorted(items, key=…)` (Python guarantees
stability; any stable comparison sort computes the same list). -/
def pySorted (key : CaptionTrack → Nat) (items : List CaptionTrack) : List CaptionTrack :=
  items.foldr (pyInsert key) []

/-- Embedding of `download_caption_track` (youtube_api.py lines 242-249):
an `HttpError` is swallowed and yields the empty string. -/
def download_caption_track (env : TranscriptEnv) (caption_id : String) : String :=
  match env.downloadResult caption_id with
  | .error _ => ""
  | .ok data => data

/-- Embedding of `get_transcript_official` (youtube_api.py lines 252-278):
returns the transcript text and the number of upstream calls made. -/
def get_transcript_official (youtube_oauth : Option TranscriptEnv) (video_id : String)
    (prefer_langs : Option (List String)) : String × Nat :=
  match youtube_oauth with
  | Option.none => ("", 0)
  | some env =>
    let langs := match prefer_langs with
      | Option.none => ["en", "de"]
      | some l => if l.isEmpty then ["en", "de"] else l
    match env.listResult video_id with
    | .error _ => ("", 1)
    | .ok items =>
      if items.isEmpty then ("", 1)
      else
        match pySorted (score langs) items with
        | [] => ("", 1)
        | best :: _ =>
          ((pyStrip (download_caption_track env best.id).data).asString, 2)

/-! ## `video_id_from_url` (sheets_writer.py lines 29-58) -/

/-- The separator class `[/?#&]` of the fallback `re.split`. -/
def isSepChar (c : Char) : Bool :=
  c = '/' || c = '?' || c = '#' || c = '&'

/-- Model of `re.split(r"[/?#&]+", s)` with empty parts removed: the maximal runs
of non-separator characters, in order. -/
def splitGo (cur : List Char) (l : List Char) : List (List Char) :=
  match l with
  | [] => if cur.isEmpty then [] else [cur.reverse]
  | c :: rest =>
    if isSepChar c then
      if cur.isEmpty then splitGo [] rest
      else cur.reverse :: splitGo [] rest
    else splitGo (c :: cur) rest

/-- Position matcher for a literal followed by a captured greedy run of at
least `minLen` characters of class `p` (the shape `lit(p{n,})`). -/
def litCaptureMin (lit : List Char) (p : Char → Bool) (minLen : Nat)
    (l : List Char) : Option (List Char) :=
  match stripLit lit l with
  | Option.none => Option.none
  | some rest =>
    let body := rest.takeWhile p
    if minLen ≤ body.length then some body else Option.none

/-- Position matcher for `[?&]v=([A-Za-z0-9_-]{6,})`. -/
def vParamAt (l : List Char) : Option (List Char) :=
  match l with
  | c :: rest =>
    if c = '?' || c = '&' then litCaptureMin "v=".data isIdChar 6 rest
    else Option.none
  | [] => Option.none

/-- Embedding of `video_id_from_url` (sheets_writer.py lines 29-58). -/
def video_id_from_url (url : String) : String :=
  let s := pyStrip url.data
  match findMap vParamAt s with
  | some v => v.asString
  | Option.none =>
    match findMap (litCaptureMin "youtu.be/".data isIdChar 6) s with
    | some v => v.asString
    | Option.none =>
      match findMap (litCaptureMin "/shorts/".data isIdChar 6) s with
      | some v => v.asString
      | Option.none =>
        match (splitGo [] s).getLast? with
        | some tail =>
          if 6 ≤ tail.length && tail.all isIdChar then tail.asString else ""
        | Option.none => ""

/-- The claim's extraction procedure, verbatim: try a `?v=`/`&v=` query
parameter value, then a `/shorts/` path segment, then the last path
segment when it is 6+ URL-safe characters, else empty — the claim names
no `youtu.be/` step and no minimum length on the first two steps. -/
def videoIdFromUrlClaimed (url : String) : String :=
  let s := pyStrip url.data
  match findMap (fun l =>
      match l with
      | '?' :: rest => (stripLit "v=".data rest).map
          (fun r => r.takeWhile (fun c => !(c = '&' || c = '#')))
      | '&' :: rest => (stripLit "v=".data rest).map
          (fun r => r.takeWhile (fun c => !(c = '&' || c = '#')))
      | _ => Option.none) s with
  | some v => v.asString
  | Option.none =>
    match findMap (fun l => (stripLit "/shorts/".data l).map
        (fun r => r.takeWhile (fun c => !isSepChar c))) s with
    | some v => v.asString
    | Option.none =>
      match (splitGo [] s).getLast? with
      | some tail =>
        if 6 ≤ tail.length && tail.all isIdChar then tail.asString else ""
      | Option.none => ""

/-- The input contains `?v=` or `&v=` followed by at least 6 id
characters. -/
def VParamCond (s : List Char) : Prop :=
  ∃ d v, (d = '?' ∨ d = '&') ∧ v.length = 6 ∧ v.all isIdChar = true ∧
    (d :: 'v' :: '=' :: v) <:+: s

/-- The input contains `youtu.be/` followed by at least 6 id characters. -/
def YoutuBeCond (s : List Char) : Prop :=
  ∃ v, v.length = 6 ∧ v.all isIdChar = true ∧ ("youtu.be/".data ++ v) <:+: s

/-- The input contains `/shorts/` followed by at least 6 id characters. -/
def ShortsCond (s : List Char) : Prop :=
  ∃ v, v.length = 6 ∧ v.all isIdChar = true ∧ ("/shorts/".data ++ v) <:+: s

/-! ## CSV writing (`rows_to_csv`, exporter.py lines 25-32)

`csv.DictWriter` with the default dialect: delimiter `,`, quote char `"`,
`QUOTE_MINIMAL` (quote a field iff it contains the delimiter, the quote
char, or a line-terminator character), doubled quotes, row terminator
`\r\n`.  A record is the row dict: a missing key (or a `None` value, which
the csv module also writes as empty) is `Option.none` and renders as the
empty string via `r.get(k, "")`. -/

/-- One export row as fed to `rows_to_csv`: the six dict entries, `none`
when the key is absent. -/
structure CsvRecord where
  video_url : Option String
  title : Option String
  thumbnail_url : Option String
  view_count : Option String
  posted_date : Option String
  transcript : Option String
deriving DecidableEq, Repr

/-- The header list of `rows_to_csv`, in order. -/
def csvHeaders : List String :=
  ["video_url", "title", "thumbnail_url", "view_count", "posted_date", "transcript"]

/-- The row dict comprehension of `rows_to_csv` (`r.get(k, "")` per header key): the six field values of a
record, absent fields as the empty string. -/
def CsvRecord.fields (r : CsvRecord) : List String :=
  [r.video_url.getD "", r.title.getD "", r.thumbnail_url.getD "",
    r.view_count.getD "", r.posted_date.getD "", r.transcript.getD ""]

/-- Under `QUOTE_MINIMAL`, a field is quoted iff it contains `,`, `"`, `\r` or
`\n`. -/
def csvNeedsQuote (s : List Char) : Bool :=
  s.any (fun c => c = ',' || c = '"' || c = '\r' || c = '\n')

/-- Double each quote character (the `doublequote=True` escaping). -/
def csvEscape : List Char → List Char
  | [] => []
  | c :: rest =>
    if c = '"' then '"' :: '"' :: csvEscape rest else c :: csvEscape rest

/-- Serialize one field under `QUOTE_MINIMAL`. -/
def csvField (s : String) : List Char :=
  if csvNeedsQuote s.data then '"' :: (csvEscape s.data ++ ['"']) else s.data

/-- Serialize one row: comma-joined fields plus the `\r\n` terminator. -/
def csvRow (fields : List String) : List Char :=
  List.intercalate [','] (fields.map csvField) ++ ['\r', '\n']

/-- Embedding of `rows_to_csv` (exporter.py lines 25-32): the text written
to the output file — the header row, then one row per record in order. -/
def rows_to_csv (rows : List CsvRecord) : List Char :=
  csvRow csvHeaders ++ (rows.map (fun r => csvRow r.fields)).flatten

/-- The state machine of a standard CSV reader (Python `csv.reader`,
default dialect): `inQ` is the inside-quotes state, `started` records
whether the current row has any content yet (so that a blank line parses
as an empty row while a lone quoted empty field parses as `[""]`), `cur`
the field in progress, `row` the fields finished on this row.  Behavior on
ill-formed input (text between a closing quote and the next delimiter) is
permissive, as the claims only evaluate it on writer output. -/
def csvScan : List Char → Bool → Bool → List Char → List String → List (List String)
  | [], inQ, started, cur, row =>
    if started || inQ then [row ++ [cur.asString]] else []
  | '"' :: '"' :: rest, true, started, cur, row =>
    csvScan rest true started (cur ++ ['"']) row
  | '"' :: rest, true, started, cur, row =>
    csvScan rest false started cur row
  | c :: rest, true, started, cur, row =>
    csvScan rest true started (cur ++ [c]) row
  | ',' :: rest, false, _, cur, row =>
    csvScan rest false true [] (row ++ [cur.asString])
  | '\r' :: '\n' :: rest, false, started, cur, row =>
    (if started then row ++ [cur.asString] else []) :: csvScan rest false false [] []
  | '\r' :: rest, false, started, cur, row =>
    (if started then row ++ [cur.asString] else []) :: csvScan rest false false [] []
  | '\n' :: rest, false, started, cur, row =>
    (if started then row ++ [cur.asString] else []) :: csvScan rest false false [] []
  | '"' :: rest, false, _, cur, row =>
    if cur.isEmpty then csvScan rest true true [] row
    else csvScan rest false true (cur ++ ['"']) row
  | c :: rest, false, _, cur, row =>
    csvScan rest false true (cur ++ [c]) row

/-- Parse a CSV text into its rows. -/
def csvParse (l : List Char) : List (List String) :=
  csvScan l false false [] []

/-- A concrete quota-exceeded failure payload. -/
def quotaPayload : PyVal :=
  .dict [("error", .dict [("errors", .list [.dict [("reason", .str "quotaExceeded")]])])]

/-- A concrete environment whose caption listing succeeds but whose
downloads all fail. -/
def testTranscriptEnv : TranscriptEnv :=
  ⟨fun _ => .ok [⟨"cap1", "en"⟩], fun _ => .error ()⟩

/-- A concrete record exercising quoting: a comma, quotes and a newline in
the title, an absent thumbnail, a newline in the transcript. -/
def recEx : CsvRecord :=
  ⟨some "https://www.youtube.com/watch?v=abc123def45",
    some "A, \"quoted\"\ntitle", Option.none, some "42", some "2024-05-06",
    some "line1\nline2"⟩

/-! # THEOREMS -/

example : parse_channel_identifier "@alice" = .mkHandle "@alice" := by decide
example : parse_channel_identifier " @alice " = .mkHandle "@alice" := by decide
example : parse_channel_identifier "UCabcdefghij1234567890" = .mkId "UCabcdefghij1234567890" := by decide
example : parse_channel_identifier "https://www.youtube.com/@some.handle/videos" = .mkHandle "@some.handle" := by decide
example : parse_channel_identifier "https://www.youtube.com/channel/UCabcdefghij1234567890/about" = .mkId "UCabcdefghij1234567890" := by decide
example : parse_channel_identifier "https://www.youtube.com/user/legacyName" = .mkUsername "legacyName" := by decide
example : parse_channel_identifier "https://www.youtube.com/c/SomeCustom" = .mkCustom "SomeCustom" := by decide
example : parse_channel_identifier "plainname" = .mkUsername "plainname" := by decide
example : parse_channel_identifier "https://example.com/@abc" = .mkUsername "https://example.com/@abc" := by decide
example : parse_channel_identifier "https://youtu.be/@abc" = .mkHandle "@abc" := by decide

/-! ### Search-scaffolding lemmas -/

theorem stripLit_eq_some {p l r : List Char} (h : stripLit p l = some r) :
    l = p ++ r := by
  induction p generalizing l with
  | nil => simpa [stripLit] using h
  | cons a p ih =>
    cases l with
    | nil => simp [stripLit] at h
    | cons c cs =>
      by_cases hac : a = c
      · subst hac
        simp only [stripLit, if_pos rfl] at h
        simpa using ih h
      · simp [stripLit, hac] at h

theorem stripLit_append (p r : List Char) : stripLit p (p ++ r) = some r := by
  induction p with
  | nil => simp [stripLit]
  | cons a p ih => simp [stripLit, ih]

theorem findMap_eq_some {f : List Char → Option α} {l : List Char} {r : α}
    (h : findMap f l = some r) : ∃ t, t <:+ l ∧ f t = some r := by
  induction l with
  | nil => exact ⟨[], List.nil_suffix, by simpa [findMap] using h⟩
  | cons c cs ih =>
    rw [findMap] at h
    cases hf : f (c :: cs) with
    | some r' =>
      rw [hf] at h
      simp only [Option.some.injEq] at h
      exact ⟨c :: cs, List.suffix_refl _, by rw [hf, h]⟩
    | none =>
      rw [hf] at h
      obtain ⟨t, ht, hft⟩ := ih h
      exact ⟨t, ht.trans (List.suffix_cons c cs), hft⟩

theorem findMap_eq_none {f : List Char → Option α} {l : List Char}
    (h : findMap f l = none) : ∀ t, t <:+ l → f t = none := by
  induction l with
  | nil =>
    intro t ht
    rw [List.suffix_nil.mp ht]
    simpa [findMap] using h
  | cons c cs ih =>
    rw [findMap] at h
    cases hf : f (c :: cs) with
    | some r' => rw [hf] at h; exact absurd h (by simp)
    | none =>
      rw [hf] at h
      intro t ht
      rcases List.suffix_cons_iff.mp ht with rfl | ht'
      · exact hf
      · exact ih h t ht'

theorem findMap_isSome_of_suffix {f : List Char → Option α} {s t : List Char}
    (ht : t <:+ s) (h : (f t).isSome) : (findMap f s).isSome := by
  cases hfm : findMap f s with
  | some r => simp
  | none =>
    rw [findMap_eq_none hfm t ht] at h
    simp at h

theorem infix_of_prefix_of_suffix {p t s : List Char} (hp : p <+: t)
    (ht : t <:+ s) : p <:+: s :=
  hp.isInfix.trans ht.isInfix

theorem takeWhile_ne_nil_head {p : Char → Bool} {l : List Char}
    (h : l.takeWhile p ≠ []) : ∃ c t, l = c :: t ∧ p c = true := by
  cases l with
  | nil => simp [List.takeWhile] at h
  | cons c t =>
    by_cases hc : p c
    · exact ⟨c, t, rfl, hc⟩
    · simp [List.takeWhile, hc] at h

theorem length_takeWhile_append_ge {p : Char → Bool} {body : List Char}
    (hall : body.all p = true) (b : List Char) :
    body.length ≤ ((body ++ b).takeWhile p).length := by
  induction body with
  | nil => simp
  | cons c body ih =>
    simp only [List.all_cons, Bool.and_eq_true] at hall
    simp only [List.cons_append, List.takeWhile, hall.1, List.length_cons]
    exact Nat.succ_le_succ (ih hall.2)

theorem findMap_isSome_iff {f : List Char → Option α} {s : List Char} :
    (findMap f s).isSome ↔ ∃ t, t <:+ s ∧ (f t).isSome := by
  constructor
  · intro h
    obtain ⟨r, hr⟩ := Option.isSome_iff_exists.mp h
    obtain ⟨t, ht, hft⟩ := findMap_eq_some hr
    exact ⟨t, ht, by simp [hft]⟩
  · rintro ⟨t, ht, hft⟩
    exact findMap_isSome_of_suffix ht hft

theorem litCapture_isSome_iff (lit : List Char) (p : Char → Bool) (l : List Char) :
    (litCapture lit p l).isSome ↔ ∃ c, p c = true ∧ (lit ++ [c]) <+: l := by
  constructor
  · intro h
    obtain ⟨r, hr⟩ := Option.isSome_iff_exists.mp h
    unfold litCapture at hr
    cases hs : stripLit lit l with
    | none => rw [hs] at hr; simp at hr
    | some rest =>
      rw [hs] at hr
      simp only [List.isEmpty_iff] at hr
      by_cases hne : rest.takeWhile p = []
      · rw [if_pos hne] at hr; simp at hr
      · obtain ⟨c, t', hrest, hc⟩ := takeWhile_ne_nil_head hne
        refine ⟨c, hc, t', ?_⟩
        rw [stripLit_eq_some hs, hrest]
        simp
  · rintro ⟨c, hc, u, hu⟩
    have hl : l = lit ++ (c :: u) := by
      rw [← hu]; simp
    rw [hl]
    unfold litCapture
    rw [stripLit_append]
    simp only [List.takeWhile, hc]
    simp

theorem findMap_litCapture_isSome_iff (lit : List Char) (p : Char → Bool) (s : List Char) :
    (findMap (litCapture lit p) s).isSome ↔ ∃ c, p c = true ∧ (lit ++ [c]) <:+: s := by
  rw [findMap_isSome_iff]
  constructor
  · rintro ⟨t, ht, hf⟩
    obtain ⟨c, hc, hpre⟩ := (litCapture_isSome_iff lit p t).mp hf
    exact ⟨c, hc, infix_of_prefix_of_suffix hpre ht⟩
  · rintro ⟨c, hc, hinf⟩
    obtain ⟨t, hpre, hsuf⟩ := List.infix_iff_prefix_suffix.mp hinf
    exact ⟨t, hsuf, (litCapture_isSome_iff lit p t).mpr ⟨c, hc, hpre⟩⟩

theorem handleUrlAt_isSome_iff (l : List Char) :
    (handleUrlAt l).isSome ↔
      ((litCapture "youtube.com/@".data isHandleChar l).isSome ∨
        (litCapture "youtu.be/@".data isHandleChar l).isSome) := by
  unfold handleUrlAt
  cases h1 : litCapture "youtube.com/@".data isHandleChar l with
  | some body => simp [h1]
  | none =>
    cases h2 : litCapture "youtu.be/@".data isHandleChar l with
    | some body => simp [h1, h2]
    | none => simp [h1, h2]

theorem findMap_handleUrlAt_isSome_iff (s : List Char) :
    (findMap handleUrlAt s).isSome ↔ HandleUrlCond s := by
  rw [findMap_isSome_iff]
  unfold HandleUrlCond
  constructor
  · rintro ⟨t, ht, hf⟩
    rcases (handleUrlAt_isSome_iff t).mp hf with h | h
    · obtain ⟨c, hc, hpre⟩ := (litCapture_isSome_iff _ _ t).mp h
      exact ⟨c, hc, Or.inl (infix_of_prefix_of_suffix hpre ht)⟩
    · obtain ⟨c, hc, hpre⟩ := (litCapture_isSome_iff _ _ t).mp h
      exact ⟨c, hc, Or.inr (infix_of_prefix_of_suffix hpre ht)⟩
  · rintro ⟨c, hc, hinf | hinf⟩
    · obtain ⟨t, hpre, hsuf⟩ := List.infix_iff_prefix_suffix.mp hinf
      exact ⟨t, hsuf, (handleUrlAt_isSome_iff t).mpr
        (Or.inl ((litCapture_isSome_iff _ _ t).mpr ⟨c, hc, hpre⟩))⟩
    · obtain ⟨t, hpre, hsuf⟩ := List.infix_iff_prefix_suffix.mp hinf
      exact ⟨t, hsuf, (handleUrlAt_isSome_iff t).mpr
        (Or.inr ((litCapture_isSome_iff _ _ t).mpr ⟨c, hc, hpre⟩))⟩

theorem channelUrlAt_isSome_iff (l : List Char) :
    (channelUrlAt l).isSome ↔
      ∃ body : List Char, body.length = 20 ∧ body.all isIdChar = true ∧
        ("youtube.com/channel/UC".data ++ body) <+: l := by
  constructor
  · intro h
    obtain ⟨r, hr⟩ := Option.isSome_iff_exists.mp h
    unfold channelUrlAt at hr
    cases hs : stripLit "youtube.com/channel/UC".data l with
    | none => rw [hs] at hr; simp at hr
    | some rest =>
      rw [hs] at hr
      by_cases hlen : 20 ≤ (rest.takeWhile isIdChar).length
      · refine ⟨(rest.takeWhile isIdChar).take 20, List.length_take_of_le hlen, ?_, ?_⟩
        · rw [List.all_eq_true]
          intro c hcmem
          exact List.mem_takeWhile_imp (List.take_subset 20 _ hcmem)
        · rw [stripLit_eq_some hs]
          have h1 : (rest.takeWhile isIdChar).take 20 <+: rest :=
            ((List.take_prefix 20 _).trans (List.takeWhile_prefix isIdChar))
          obtain ⟨u, hu⟩ := h1
          exact ⟨u, by rw [List.append_assoc, hu]⟩
      · simp [hlen] at hr
  · rintro ⟨body, hlen, hall, u, hu⟩
    have hl : l = "youtube.com/channel/UC".data ++ (body ++ u) := by
      rw [← hu]; simp
    rw [hl]
    unfold channelUrlAt
    rw [stripLit_append]
    have h20 : 20 ≤ ((body ++ u).takeWhile isIdChar).length := by
      calc 20 = body.length := hlen.symm
        _ ≤ _ := length_takeWhile_append_ge hall u
    simp [h20]

theorem findMap_channelUrlAt_isSome_iff (s : List Char) :
    (findMap channelUrlAt s).isSome ↔ ChannelUrlCond s := by
  rw [findMap_isSome_iff]
  unfold ChannelUrlCond
  constructor
  · rintro ⟨t, ht, hf⟩
    obtain ⟨body, hlen, hall, hpre⟩ := (channelUrlAt_isSome_iff t).mp hf
    exact ⟨body, hlen, hall, infix_of_prefix_of_suffix hpre ht⟩
  · rintro ⟨body, hlen, hall, hinf⟩
    obtain ⟨t, hpre, hsuf⟩ := List.infix_iff_prefix_suffix.mp hinf
    exact ⟨t, hsuf, (channelUrlAt_isSome_iff t).mpr ⟨body, hlen, hall, hpre⟩⟩

theorem findMap_userUrlAt_isSome_iff (s : List Char) :
    (findMap userUrlAt s).isSome ↔ UserUrlCond s :=
  findMap_litCapture_isSome_iff "youtube.com/user/".data isHandleChar s

theorem findMap_customUrlAt_isSome_iff (s : List Char) :
    (findMap customUrlAt s).isSome ↔ CustomUrlCond s :=
  findMap_litCapture_isSome_iff "youtube.com/c/".data isHandleChar s

theorem eq_none_of_not_isSome {o : Option α} (h : ¬ o.isSome = true) : o = none := by
  cases o <;> simp_all

/-- Every branch of `parse_channel_identifier` populates exactly one key. -/
theorem parse_keyCount (input : String) :
    (parse_channel_identifier input).keyCount = 1 := by
  simp only [parse_channel_identifier]
  repeat' split
  all_goals rfl

/-- C1 (amended): `parse_channel_identifier` is total, produces exactly one
populated key, and classifies by first match in the fixed order: trimmed
input starting with `@` → handle; exact `UC` + 20+ id chars → id; a
`youtube.com/@…` or `youtu.be/@…` URL segment → handle; a
`youtube.com/channel/UC…` segment (20+ id chars) → id; a
`youtube.com/user/…` segment → username; a `youtube.com/c/…` segment →
custom URL; anything else → username equal to the trimmed input. -/
theorem parse_channel_identifier_classification (input : String) :
    (parse_channel_identifier input).keyCount = 1
    ∧ ((pyStrip input.data).head? = some '@' →
        parse_channel_identifier input = .mkHandle (pyStrip input.data).asString)
    ∧ (¬ (pyStrip input.data).head? = some '@' →
        isUCId (pyStrip input.data) = true →
        parse_channel_identifier input = .mkId (pyStrip input.data).asString)
    ∧ (¬ (pyStrip input.data).head? = some '@' →
        ¬ isUCId (pyStrip input.data) = true →
        HandleUrlCond (pyStrip input.data) →
        (parse_channel_identifier input).forHandle.isSome = true)
    ∧ (¬ (pyStrip input.data).head? = some '@' →
        ¬ isUCId (pyStrip input.data) = true →
        ¬ HandleUrlCond (pyStrip input.data) →
        ChannelUrlCond (pyStrip input.data) →
        (parse_channel_identifier input).id.isSome = true)
    ∧ (¬ (pyStrip input.data).head? = some '@' →
        ¬ isUCId (pyStrip input.data) = true →
        ¬ HandleUrlCond (pyStrip input.data) →
        ¬ ChannelUrlCond (pyStrip input.data) →
        UserUrlCond (pyStrip input.data) →
        (parse_channel_identifier input).forUsername.isSome = true)
    ∧ (¬ (pyStrip input.data).head? = some '@' →
        ¬ isUCId (pyStrip input.data) = true →
        ¬ HandleUrlCond (pyStrip input.data) →
        ¬ ChannelUrlCond (pyStrip input.data) →
        ¬ UserUrlCond (pyStrip input.data) →
        CustomUrlCond (pyStrip input.data) →
        (parse_channel_identifier input).customUrl.isSome = true)
    ∧ (¬ (pyStrip input.data).head? = some '@' →
        ¬ isUCId (pyStrip input.data) = true →
        ¬ HandleUrlCond (pyStrip input.data) →
        ¬ ChannelUrlCond (pyStrip input.data) →
        ¬ UserUrlCond (pyStrip input.data) →
        ¬ CustomUrlCond (pyStrip input.data) →
        parse_channel_identifier input = .mkUsername (pyStrip input.data).asString) := by
  refine ⟨parse_keyCount input, ?_, ?_, ?_, ?_, ?_, ?_, ?_⟩
  · intro h1
    simp only [parse_channel_identifier]
    rw [if_pos h1]
  · intro h1 h2
    simp only [parse_channel_identifier]
    rw [if_neg h1, if_pos h2]
  · intro h1 h2 h3
    simp only [parse_channel_identifier]
    rw [if_neg h1, if_neg h2]
    obtain ⟨r, hr⟩ := Option.isSome_iff_exists.mp
      ((findMap_handleUrlAt_isSome_iff _).mpr h3)
    rw [hr]
    rfl
  · intro h1 h2 h3 h4
    simp only [parse_channel_identifier]
    rw [if_neg h1, if_neg h2]
    rw [eq_none_of_not_isSome (fun hs => h3 ((findMap_handleUrlAt_isSome_iff _).mp hs))]
    obtain ⟨r, hr⟩ := Option.isSome_iff_exists.mp
      ((findMap_channelUrlAt_isSome_iff _).mpr h4)
    rw [hr]
    rfl
  · intro h1 h2 h3 h4 h5
    simp only [parse_channel_identifier]
    rw [if_neg h1, if_neg h2]
    rw [eq_none_of_not_isSome (fun hs => h3 ((findMap_handleUrlAt_isSome_iff _).mp hs))]
    rw [eq_none_of_not_isSome (fun hs => h4 ((findMap_channelUrlAt_isSome_iff _).mp hs))]
    obtain ⟨r, hr⟩ := Option.isSome_iff_exists.mp
      ((findMap_userUrlAt_isSome_iff _).mpr h5)
    rw [hr]
    rfl
  · intro h1 h2 h3 h4 h5 h6
    simp only [parse_channel_identifier]
    rw [if_neg h1, if_neg h2]
    rw [eq_none_of_not_isSome (fun hs => h3 ((findMap_handleUrlAt_isSome_iff _).mp hs))]
    rw [eq_none_of_not_isSome (fun hs => h4 ((findMap_channelUrlAt_isSome_iff _).mp hs))]
    rw [eq_none_of_not_isSome (fun hs => h5 ((findMap_userUrlAt_isSome_iff _).mp hs))]
    obtain ⟨r, hr⟩ := Option.isSome_iff_exists.mp
      ((findMap_customUrlAt_isSome_iff _).mpr h6)
    rw [hr]
    rfl
  · intro h1 h2 h3 h4 h5 h6
    simp only [parse_channel_identifier]
    rw [if_neg h1, if_neg h2]
    rw [eq_none_of_not_isSome (fun hs => h3 ((findMap_handleUrlAt_isSome_iff _).mp hs))]
    rw [eq_none_of_not_isSome (fun hs => h4 ((findMap_channelUrlAt_isSome_iff _).mp hs))]
    rw [eq_none_of_not_isSome (fun hs => h5 ((findMap_userUrlAt_isSome_iff _).mp hs))]
    rw [eq_none_of_not_isSome (fun hs => h6 ((findMap_customUrlAt_isSome_iff _).mp hs))]

/-- C1 witness: concrete instantiation of the classification theorem at the
input `"@alice"` (first clause) with its hypothesis discharged. -/
theorem parse_channel_identifier_classification_inst :
    (pyStrip "@alice".data).head? = some '@'
    ∧ parse_channel_identifier "@alice" = .mkHandle (pyStrip "@alice".data).asString :=
  ⟨by decide, (parse_channel_identifier_classification "@alice").2.1 (by decide)⟩

/-- C1 counterexample: `"https://example.com/@abc"` contains a `/@handle`
segment, yet `parse_channel_identifier` classifies it as a username (the
code's handle-URL regex additionally requires a `youtube.com` or
`youtu.be` host), contradicting the claim that any URL containing a
`/@handle` segment yields a handle reference. -/
theorem parse_nonyoutube_handle_url_gives_username :
    (∃ c, isHandleChar c = true ∧
      ('/' :: '@' :: [c]) <:+: pyStrip "https://example.com/@abc".data)
    ∧ (parse_channel_identifier "https://example.com/@abc").forHandle = none
    ∧ (parse_channel_identifier "https://example.com/@abc").forUsername
        = some "https://example.com/@abc" :=
  ⟨⟨'a', by decide, "https://example.com".data, "bc".data, by decide⟩,
    by decide, by decide⟩

/-! ### Channel resolution (C4, C10) -/

/-- C4: the `ByUsername` resolution strategy performs exactly one username
lookup; a non-empty lookup answers directly with the first item's id and no
search call is made; an empty lookup triggers exactly one keyword search,
whose first result is returned, and `Generic("Channel not found")` is
raised only when the search is also empty. -/
theorem resolve_by_username_fallback (env : ResolveEnv) (u : String) :
    (resolve_channel_id env (Ident.mkUsername u)).2.usernameCalls = 1
    ∧ (∀ c rest, env.channelsByUsername u = c :: rest →
        resolve_channel_id env (Ident.mkUsername u) = (.ok c, ⟨0, 1, 0⟩))
    ∧ (env.channelsByUsername u = [] →
        (resolve_channel_id env (Ident.mkUsername u)).2.searchCalls = 1
        ∧ (∀ c rest, env.searchChannels u = c :: rest →
            (resolve_channel_id env (Ident.mkUsername u)).1 = .ok c)
        ∧ (env.searchChannels u = [] →
            (resolve_channel_id env (Ident.mkUsername u)).1
              = .error "Channel not found")) := by
  refine ⟨?_, ?_, ?_⟩
  · simp only [resolve_channel_id, Ident.mkUsername]
    cases hu : env.channelsByUsername u with
    | nil => cases hs : env.searchChannels u <;> rfl
    | cons c rest => rfl
  · intro c rest hu
    simp only [resolve_channel_id, Ident.mkUsername]
    rw [hu]
  · intro hu
    refine ⟨?_, ?_, ?_⟩
    · simp only [resolve_channel_id, Ident.mkUsername]
      rw [hu]
      cases hs : env.searchChannels u <;> rfl
    · intro c rest hs
      simp only [resolve_channel_id, Ident.mkUsername]
      rw [hu, hs]
    · intro hs
      simp only [resolve_channel_id, Ident.mkUsername]
      rw [hu, hs]

/-- C4 witness: in an environment with an empty username lookup and a
searchable channel, resolution of `"bob"` issues the search call and
returns its top result. -/
theorem resolve_by_username_fallback_inst :
    testEnvNoUser.channelsByUsername "bob" = []
    ∧ (resolve_channel_id testEnvNoUser (Ident.mkUsername "bob")).2.searchCalls = 1
    ∧ (resolve_channel_id testEnvNoUser (Ident.mkUsername "bob")).1 = .ok "UCsearchhit" :=
  ⟨rfl, ((resolve_by_username_fallback testEnvNoUser "bob").2.2 rfl).1,
    ((resolve_by_username_fallback testEnvNoUser "bob").2.2 rfl).2.1 "UCsearchhit" [] rfl⟩

/-- Any identifier with exactly one populated key never reaches the
resolver's final `Unsupported channel identifier` branch. -/
theorem resolve_ne_unsupported_of_keyCount {env : ResolveEnv} {ident : Ident}
    (hk : ident.keyCount = 1) :
    (resolve_channel_id env ident).1 ≠ .error "Unsupported channel identifier" := by
  obtain ⟨oid, oh, ou, oc⟩ := ident
  cases oid with
  | some i => simp [resolve_channel_id]
  | none =>
    cases oh with
    | some h =>
      simp only [resolve_channel_id]
      cases env.channelsByHandle h <;> simp
    | none =>
      cases ou with
      | some u =>
        simp only [resolve_channel_id]
        cases env.channelsByUsername u with
        | cons c rest => simp
        | nil => cases env.searchChannels u <;> simp
      | none =>
        cases oc with
        | some q =>
          simp only [resolve_channel_id]
          cases env.searchChannels q <;> simp
        | none => simp [Ident.keyCount] at hk

/-- C10: every identifier produced by `parse_channel_identifier` has
exactly one of the keys `id`, `forHandle`, `forUsername`, `customUrl`, so
the resolver's final `Unsupported channel identifier` branch is unreachable
on parser outputs, for every upstream environment. -/
theorem parse_resolve_no_unsupported (env : ResolveEnv) (input : String) :
    (parse_channel_identifier input).keyCount = 1
    ∧ (resolve_channel_id env (parse_channel_identifier input)).1
        ≠ .error "Unsupported channel identifier" :=
  ⟨parse_keyCount input, resolve_ne_unsupported_of_keyCount (parse_keyCount input)⟩

/-! ### Pagination (C2, C3) -/

example : list_upload_video_ids pagesEx 3
    = (["a1", "b2", "c3"], [⟨3, 2⟩, ⟨1, 1⟩]) := by decide
example : list_upload_video_ids pagesEx 0 = ([], []) := by decide
example : list_upload_video_ids pagesEx 100
    = (["a1", "b2", "c3", "d4"], [⟨50, 2⟩, ⟨50, 2⟩]) := by decide

/-- The inner append loop either returns early (`inl`) with exactly
`maxV` accumulated ids — having consumed a nonempty prefix of the page —
or exhausts the page (`inr`) while staying below `maxV`. -/
theorem appendUpTo_spec (maxV : Int) (items : List String) : ∀ acc : List String,
    (acc.length : Int) < maxV →
    (∃ k, 1 ≤ k ∧ k ≤ items.length ∧
        appendUpTo maxV acc items = .inl (acc ++ items.take k) ∧
        (((acc ++ items.take k).length : Int) = maxV))
    ∨ (appendUpTo maxV acc items = .inr (acc ++ items) ∧
        (((acc ++ items).length : Int) < maxV)) := by
  induction items with
  | nil =>
    intro acc h
    right
    constructor
    · simp [appendUpTo]
    · simpa using h
  | cons v vs ih =>
    intro acc h
    by_cases hc : maxV ≤ ((acc ++ [v]).length : Int)
    · left
      refine ⟨1, le_refl 1, by simp, ?_, ?_⟩
      · rw [show (v :: vs).take 1 = [v] from rfl]
        simp only [appendUpTo, if_pos hc]
      · rw [show (v :: vs).take 1 = [v] from rfl]
        exact le_antisymm (by simpa using h) hc
    · have h' : (((acc ++ [v]).length : Int)) < maxV := lt_of_not_le hc
      rcases ih (acc ++ [v]) h' with ⟨k, hk1, hk2, heq, hlen⟩ | ⟨heq, hlen⟩
      · left
        refine ⟨k + 1, by omega, by simpa using hk2, ?_, ?_⟩
        · rw [show (v :: vs).take (k + 1) = v :: vs.take k from rfl]
          simp only [appendUpTo, if_neg hc, heq]
          rw [show acc ++ v :: vs.take k = (acc ++ [v]) ++ vs.take k by simp]
        · rw [show (v :: vs).take (k + 1) = v :: vs.take k from rfl]
          rw [show acc ++ v :: vs.take k = (acc ++ [v]) ++ vs.take k by simp]
          exact hlen
      · right
        constructor
        · simp only [appendUpTo, if_neg hc, heq]
          rw [show acc ++ v :: vs = (acc ++ [v]) ++ vs by simp]
        · rw [show acc ++ v :: vs = (acc ++ [v]) ++ vs by simp]
          exact hlen

/-- When the target is already met, the pagination loop stops before any
request. -/
theorem listGo_stop (maxV : Int) (acc : List String) (pages : List Page)
    (h : maxV ≤ (acc.length : Int)) : listGo maxV acc pages = (acc, []) := by
  cases pages with
  | nil => rfl
  | cons p ps =>
    simp only [listGo]
    rw [if_pos (by omega)]

/-- The accumulated ids never exceed `max maxV acc.length`. -/
theorem listGo_length_le (maxV : Int) : ∀ (pages : List Page) (acc : List String),
    (((listGo maxV acc pages).1.length : Int)) ≤ max maxV (acc.length : Int) := by
  intro pages
  induction pages with
  | nil => intro acc; exact le_max_right _ _
  | cons p ps ih =>
    intro acc
    by_cases hc : maxV - (acc.length : Int) ≤ 0
    · simp only [listGo, if_pos hc]
      exact le_max_right _ _
    · have hlt : ((acc.length : Int)) < maxV := by omega
      simp only [listGo, if_neg hc]
      rcases appendUpTo_spec maxV p.items acc hlt with ⟨k, _, _, heq, hlen⟩ | ⟨heq, hlen⟩
      · rw [heq]
        simp only
        rw [hlen]
        exact le_max_left _ _
      · rw [heq]
        cases hnx : p.hasNext with
        | true =>
          simp only [if_pos rfl]
          calc (((listGo maxV (acc ++ p.items) ps).1.length : Int))
              ≤ max maxV ((acc ++ p.items).length : Int) := ih _
            _ = maxV := max_eq_left (le_of_lt hlen)
            _ ≤ max maxV (acc.length : Int) := le_max_left _ _
        | false =>
          simp only [Bool.false_eq_true, if_neg]
          exact le_trans (le_of_lt hlen) (le_max_left _ _)

/-- Glue: the returned id count is the initial count plus the ids obtained
across the trace. -/
theorem listGo_length_eq (maxV : Int) : ∀ (pages : List Page) (acc : List String),
    (listGo maxV acc pages).1.length
      = acc.length + traceGot (listGo maxV acc pages).2 := by
  intro pages
  induction pages with
  | nil => intro acc; simp [listGo, traceGot]
  | cons p ps ih =>
    intro acc
    by_cases hc : maxV - (acc.length : Int) ≤ 0
    · simp only [listGo, if_pos hc]
      simp [traceGot]
    · have hlt : ((acc.length : Int)) < maxV := by omega
      simp only [listGo, if_neg hc]
      rcases appendUpTo_spec maxV p.items acc hlt with ⟨k, _, _, heq, _⟩ | ⟨heq, _⟩
      · rw [heq]
        simp [traceGot]
      · rw [heq]
        cases hnx : p.hasNext with
        | true =>
          simp only [if_true]
          simp only [traceGot, List.map_cons, List.sum_cons]
          have := ih (acc ++ p.items)
          simp only [traceGot] at this
          simp only [this, List.length_append]
          omega
        | false =>
          simp only [Bool.false_eq_true, if_false]
          simp [traceGot]

/-- Every request is sent with `maxResults = min(50, remaining)`, where
`remaining` is the target minus the ids accumulated before the request. -/
theorem listGo_sizes (maxV : Int) : ∀ (pages : List Page) (acc : List String)
    (i : Nat) (e : PageFetch), (listGo maxV acc pages).2.get? i = some e →
    e.size
      = min 50 (maxV - ((acc.length + traceGot ((listGo maxV acc pages).2.take i) : Nat) : Int)) := by
  intro pages
  induction pages with
  | nil => intro acc i e hget; simp [listGo] at hget
  | cons p ps ih =>
    intro acc i e hget
    by_cases hc : maxV - (acc.length : Int) ≤ 0
    · rw [listGo_stop maxV acc _ (by omega)] at hget
      simp at hget
    · have hlt : ((acc.length : Int)) < maxV := by omega
      simp only [listGo, if_neg hc] at hget ⊢
      rcases appendUpTo_spec maxV p.items acc hlt with ⟨k, _, _, heq, _⟩ | ⟨heq, hlen⟩
      · rw [heq] at hget ⊢
        cases i with
        | zero =>
          simp only [List.get?_cons_zero, Option.some.injEq] at hget
          rw [← hget]
          simp [traceGot]
        | succ j => simp at hget
      · rw [heq] at hget ⊢
        cases hnx : p.hasNext with
        | true =>
          rw [hnx] at hget
          simp only [if_true] at hget ⊢
          cases i with
          | zero =>
            simp only [List.get?_cons_zero, Option.some.injEq] at hget
            rw [← hget]
            simp [traceGot]
          | succ j =>
            simp only [List.get?_cons_succ] at hget
            rw [ih (acc ++ p.items) j e hget]
            congr 1
            simp only [List.take_succ_cons, traceGot, List.map_cons, List.sum_cons,
              List.length_append]
            push_cast
            omega
        | false =>
          rw [hnx] at hget
          simp only [Bool.false_eq_true, if_false] at hget ⊢
          cases i with
          | zero =>
            simp only [List.get?_cons_zero, Option.some.injEq] at hget
            rw [← hget]
            simp [traceGot]
          | succ j => simp at hget

/-- A further request is issued only while the accumulated count is still
below the target and the previous page carried a continuation token. -/
theorem listGo_continue (maxV : Int) : ∀ (pages : List Page) (acc : List String)
    (i : Nat), i + 1 < (listGo maxV acc pages).2.length →
    (((acc.length + traceGot ((listGo maxV acc pages).2.take (i + 1)) : Nat) : Int) < maxV)
    ∧ ∃ p, pages.get? i = some p ∧ p.hasNext = true := by
  intro pages
  induction pages with
  | nil => intro acc i h; simp [listGo] at h
  | cons p ps ih =>
    intro acc i h
    by_cases hc : maxV - (acc.length : Int) ≤ 0
    · rw [listGo_stop maxV acc _ (by omega)] at h
      simp at h
    · have hlt : ((acc.length : Int)) < maxV := by omega
      simp only [listGo, if_neg hc] at h ⊢
      rcases appendUpTo_spec maxV p.items acc hlt with ⟨k, _, _, heq, _⟩ | ⟨heq, hlen⟩
      · rw [heq] at h ⊢
        simp at h
      · rw [heq] at h ⊢
        cases hnx : p.hasNext with
        | true =>
          rw [hnx] at h
          simp only [if_true] at h ⊢
          match i, h with
          | 0, h =>
            refine ⟨?_, p, rfl, hnx⟩
            have hlen' : ((acc.length + p.items.length : Nat) : Int) < maxV := by
              simpa using hlen
            simp only [List.take_succ_cons, List.take_zero, traceGot, List.map_cons,
              List.map_nil, List.sum_cons, List.sum_nil, List.length_append]
            push_cast at hlen' ⊢
            omega
          | j + 1, h =>
            have hj : j + 1 < (listGo maxV (acc ++ p.items) ps).2.length := by
              simpa using Nat.lt_of_succ_lt_succ h
            obtain ⟨hlt2, p', hp', hnx'⟩ := ih (acc ++ p.items) j hj
            refine ⟨?_, p', hp', hnx'⟩
            simp only [List.take_succ_cons, traceGot, List.map_cons, List.sum_cons,
              List.length_append] at hlt2 ⊢
            push_cast at hlt2 ⊢
            omega
        | false =>
          rw [hnx] at h
          simp only [Bool.false_eq_true, if_false] at h
          simp at h

/-- Ids are only ever appended: the result extends the accumulator by a
prefix of the upstream ids in upstream order. -/
theorem listGo_fst_prefix (maxV : Int) : ∀ (pages : List Page) (acc : List String),
    ∃ t, (listGo maxV acc pages).1 = acc ++ t
      ∧ t <+: (pages.map Page.items).flatten := by
  intro pages
  induction pages with
  | nil => intro acc; exact ⟨[], by simp [listGo], List.nil_prefix⟩
  | cons p ps ih =>
    intro acc
    by_cases hc : maxV - (acc.length : Int) ≤ 0
    · exact ⟨[], by rw [listGo_stop maxV acc _ (by omega)]; simp, List.nil_prefix⟩
    · have hlt : ((acc.length : Int)) < maxV := by omega
      simp only [listGo, if_neg hc]
      rcases appendUpTo_spec maxV p.items acc hlt with ⟨k, _, _, heq, _⟩ | ⟨heq, hlen⟩
      · rw [heq]
        refine ⟨p.items.take k, rfl, ?_⟩
        exact (List.take_prefix k p.items).trans
          (by simp [List.prefix_append])
      · rw [heq]
        cases hnx : p.hasNext with
        | true =>
          simp only [if_true]
          obtain ⟨t, ht, hpre⟩ := ih (acc ++ p.items)
          refine ⟨p.items ++ t, by rw [ht, List.append_assoc], ?_⟩
          obtain ⟨u, hu⟩ := hpre
          refine ⟨u, ?_⟩
          simp only [List.map_cons, List.flatten_cons]
          rw [List.append_assoc, hu]
        | false =>
          simp only [Bool.false_eq_true, if_false]
          refine ⟨p.items, rfl, ?_⟩
          simp [List.prefix_append]

/-- C2: pagination protocol of `list_upload_video_ids`: a non-positive
target returns an empty list with no request; the result never exceeds the
target; every request carries `maxResults = min(50, remaining)`; and a
further request happens only when the count is still below the target and
the previous page returned a continuation token. -/
theorem list_upload_video_ids_spec (pages : List Page) (max_videos : Int) :
    (max_videos ≤ 0 → list_upload_video_ids pages max_videos = ([], []))
    ∧ (0 ≤ max_videos →
        (((list_upload_video_ids pages max_videos).1.length : Int) ≤ max_videos))
    ∧ (∀ i e, (list_upload_video_ids pages max_videos).2.get? i = some e →
        e.size
          = min 50 (max_videos
              - ((traceGot ((list_upload_video_ids pages max_videos).2.take i) : Nat) : Int)))
    ∧ (∀ i, i + 1 < (list_upload_video_ids pages max_videos).2.length →
        (((traceGot ((list_upload_video_ids pages max_videos).2.take (i + 1)) : Nat) : Int)
            < max_videos)
        ∧ ∃ p, pages.get? i = some p ∧ p.hasNext = true) := by
  refine ⟨?_, ?_, ?_, ?_⟩
  · intro h
    exact listGo_stop max_videos [] pages (by simpa using h)
  · intro h
    have := listGo_length_le max_videos pages []
    simpa [max_eq_left h] using this
  · intro i e hget
    have := listGo_sizes max_videos pages [] i e hget
    simpa using this
  · intro i h
    have := listGo_continue max_videos pages [] i h
    simpa using this

/-- C2 witness: on the concrete two-page sequence with target 3, the
theorem's clauses instantiate: the fetched count stays within the target,
and the second request exists because page one carried a token and the
count was still below 3. -/
theorem list_upload_video_ids_spec_inst :
    ((list_upload_video_ids pagesEx 3).1.length : Int) ≤ 3
    ∧ (((traceGot ((list_upload_video_ids pagesEx 3).2.take 1) : Nat) : Int) < 3
        ∧ ∃ p, pagesEx.get? 0 = some p ∧ p.hasNext = true)
    ∧ list_upload_video_ids pagesEx (-2) = ([], []) :=
  ⟨(list_upload_video_ids_spec pagesEx 3).2.1 (by decide),
    (list_upload_video_ids_spec pagesEx 3).2.2.2 0 (by decide),
    (list_upload_video_ids_spec pagesEx (-2)).1 (by decide)⟩

/-- C3: when the upstream pages are pairwise non-overlapping and each page's
ids are distinct, `list_upload_video_ids` returns a duplicate-free list
that preserves the upstream per-page and within-page order (it is a prefix
of the concatenation of the pages' ids). -/
theorem list_upload_video_ids_nodup (pages : List Page) (max_videos : Int)
    (hdisj : (pages.map Page.items).Pairwise List.Disjoint)
    (hnodup : ∀ p ∈ pages, p.items.Nodup) :
    (list_upload_video_ids pages max_videos).1.Nodup
    ∧ (list_upload_video_ids pages max_videos).1 <+: (pages.map Page.items).flatten := by
  obtain ⟨t, ht, hpre⟩ := listGo_fst_prefix max_videos pages []
  have hids : (list_upload_video_ids pages max_videos).1 = t := by
    simpa using ht
  have hflat : (pages.map Page.items).flatten.Nodup := by
    rw [List.nodup_flatten]
    refine ⟨?_, hdisj⟩
    intro l hl
    obtain ⟨p, hp, rfl⟩ := List.mem_map.mp hl
    exact hnodup p hp
  rw [hids]
  exact ⟨hflat.sublist hpre.sublist, hpre⟩

/-- C3 witness: concrete instantiation on the two-page sequence (disjoint
pages with distinct ids). -/
theorem list_upload_video_ids_nodup_inst :
    (list_upload_video_ids pagesEx 3).1.Nodup
    ∧ (list_upload_video_ids pagesEx 3).1 <+: (pagesEx.map Page.items).flatten :=
  list_upload_video_ids_nodup pagesEx 3
    (by simp [pagesEx, List.Disjoint])
    (by simp [pagesEx])

/-! ### Error classifier (C5) -/

example : http_error_reason (some (.dict [("error", .dict [("errors",
    .list [.dict [("reason", .str "quotaExceeded")]])])])) = "quotaExceeded" := by decide
example : http_error_reason (some (.dict [("error", .str "boom")])) = "" := by decide
example : http_error_reason (some (.list [.int 3])) = "" := by decide
example : http_error_reason (some (.dict [("error", .dict [("errors",
    .list [.dict [("reason", .int 7)]])])])) = "7" := by decide
example : http_error_reason (some (.dict [("error", .dict [("errors",
    .list [.dict []])])])) = "" := by decide

/-- C5: the classifier raises `QuotaExceeded` (with the remediation
message) exactly when the extracted reason is the quota code; otherwise it
raises `Generic` whose message embeds the context, the status and the
reason (or `"unknown"` when the reason is empty); a malformed payload
degrades to an empty reason instead of raising. -/
theorem raise_friendly_http_error_spec (payload : Option PyVal) (status : Option Int)
    (context : String) :
    (raise_friendly_http_error payload status context = .quotaExceeded quotaExceededMsg
      ↔ http_error_reason payload = "quotaExceeded")
    ∧ (http_error_reason payload ≠ "quotaExceeded" →
        raise_friendly_http_error payload status context
          = .generic ("API error while " ++ context ++ ". Status " ++ statusRepr status
              ++ ". Reason "
              ++ (if (http_error_reason payload).isEmpty then "unknown"
                  else http_error_reason payload)))
    ∧ (∀ m, raise_friendly_http_error payload status context = .generic m →
        context.data <:+: m.data ∧ (statusRepr status).data <:+: m.data
        ∧ (if (http_error_reason payload).isEmpty then "unknown"
            else http_error_reason payload).data <:+: m.data)
    ∧ (payload = Option.none → http_error_reason payload = "") := by
  by_cases hr : http_error_reason payload = "quotaExceeded"
  · refine ⟨?_, ?_, ?_, ?_⟩
    · simp [raise_friendly_http_error, hr]
    · intro h; exact absurd hr h
    · intro m hm
      simp [raise_friendly_http_error, hr] at hm
    · intro h; rw [h] at hr; simp [http_error_reason] at hr
  · refine ⟨?_, ?_, ?_, ?_⟩
    · simp [raise_friendly_http_error, hr]
    · intro _
      simp [raise_friendly_http_error, hr]
    · intro m hm
      simp only [raise_friendly_http_error, if_neg hr, ExportError.generic.injEq] at hm
      rw [← hm]
      refine ⟨?_, ?_, ?_⟩
      · exact ⟨"API error while ".data,
          (". Status " ++ statusRepr status ++ ". Reason "
            ++ (if (http_error_reason payload).isEmpty then "unknown"
                else http_error_reason payload)).data,
          by simp [String.data_append]⟩
      · exact ⟨"API error while ".data ++ context.data ++ ". Status ".data,
          (". Reason "
            ++ (if (http_error_reason payload).isEmpty then "unknown"
                else http_error_reason payload)).data,
          by simp [String.data_append]⟩
      · exact ⟨"API error while ".data ++ context.data ++ ". Status ".data
          ++ (statusRepr status).data ++ ". Reason ".data, [],
          by simp [String.data_append]⟩
    · intro h; subst h; rfl

/-- C5 witness: the classifier at a concrete quota payload and at a
malformed payload. -/
theorem raise_friendly_http_error_spec_inst :
    raise_friendly_http_error (some quotaPayload) (some 403) "listing channel uploads"
      = .quotaExceeded quotaExceededMsg
    ∧ raise_friendly_http_error Option.none (some 500) "resolving channel id"
      = .generic "API error while resolving channel id. Status 500. Reason unknown"
    ∧ http_error_reason Option.none = "" := by
  refine ⟨?_, ?_, ?_⟩
  · exact (raise_friendly_http_error_spec (some quotaPayload) (some 403)
      "listing channel uploads").1.mpr (by decide)
  · have h := (raise_friendly_http_error_spec Option.none (some 500)
      "resolving channel id").2.1 (by decide)
    rw [h]
    rfl
  · exact (raise_friendly_http_error_spec Option.none (some 0) "x").2.2.2 rfl

/-! ### Transcript fetching (C6, C7) -/

/-- C6: the transcript fetcher returns the empty string with no upstream
call when no authorized session is supplied, and the empty string (never
an error) when listing fails, when no track exists, or when downloading
fails. -/
theorem get_transcript_official_safe (video_id : String)
    (prefer_langs : Option (List String)) :
    get_transcript_official Option.none video_id prefer_langs = ("", 0)
    ∧ (∀ env : TranscriptEnv, env.listResult video_id = .error () →
        (get_transcript_official (some env) video_id prefer_langs).1 = "")
    ∧ (∀ env : TranscriptEnv, env.listResult video_id = .ok [] →
        (get_transcript_official (some env) video_id prefer_langs).1 = "")
    ∧ (∀ env : TranscriptEnv, (∀ cid, env.downloadResult cid = .error ()) →
        (get_transcript_official (some env) video_id prefer_langs).1 = "") := by
  refine ⟨rfl, ?_, ?_, ?_⟩
  · intro env h
    simp only [get_transcript_official, h]
  · intro env h
    simp only [get_transcript_official, h]
    rfl
  · intro env h
    simp only [get_transcript_official]
    cases hl : env.listResult video_id with
    | error e => rfl
    | ok items =>
      by_cases hi : items.isEmpty
      · simp [hi]
      · simp only [if_neg hi]
        cases hs : pySorted (score (match prefer_langs with
            | Option.none => ["en", "de"]
            | some l => if l.isEmpty then ["en", "de"] else l)) items with
        | nil => rfl
        | cons best rest =>
          simp only [download_caption_track, h best.id]
          rfl

/-- C6 witness: with a concrete session whose downloads fail, the fetch
still returns the empty string; with no session it returns immediately. -/
theorem get_transcript_official_safe_inst :
    get_transcript_official Option.none "vid123" Option.none = ("", 0)
    ∧ (get_transcript_official (some testTranscriptEnv) "vid123" Option.none).1 = "" :=
  ⟨(get_transcript_official_safe "vid123" Option.none).1,
    (get_transcript_official_safe "vid123" Option.none).2.2.2 testTranscriptEnv
      (fun _ => rfl)⟩

theorem pyInsert_key_zero {key : CaptionTrack → Nat} {a : CaptionTrack}
    (h : key a = 0) (l : List CaptionTrack) : pyInsert key a l = a :: l := by
  cases l with
  | nil => rfl
  | cons b bs => simp [pyInsert, h]

theorem pyInsert_skip {key : CaptionTrack → Nat} {a : CaptionTrack}
    (ha : key a = 1) :
    ∀ (zs rest : List CaptionTrack), (∀ b ∈ zs, key b = 0) →
    pyInsert key a (zs ++ rest) = zs ++ pyInsert key a rest := by
  intro zs
  induction zs with
  | nil => intro rest _; rfl
  | cons z zs ih =>
    intro rest hz
    have hz0 : key z = 0 := hz z (by simp)
    have : ¬ key a ≤ key z := by omega
    simp only [List.cons_append, pyInsert, if_neg this]
    rw [List.append_eq, ih rest (fun b hb => hz b (by simp [hb]))]

theorem pyInsert_front {key : CaptionTrack → Nat} {a : CaptionTrack}
    {rest : List CaptionTrack} (h : ∀ b ∈ rest, key a ≤ key b) :
    pyInsert key a rest = a :: rest := by
  cases rest with
  | nil => rfl
  | cons b bs => simp [pyInsert, h b (by simp)]

/-- Stable sorting by a 0/1-valued key is exactly: the key-0 elements in
original order, then the key-1 elements in original order. -/
theorem pySorted_binary (key : CaptionTrack → Nat) (hbin : ∀ t, key t = 0 ∨ key t = 1)
    (items : List CaptionTrack) :
    pySorted key items
      = items.filter (fun t => key t == 0) ++ items.filter (fun t => !(key t == 0)) := by
  induction items with
  | nil => rfl
  | cons c l ih =>
    show pyInsert key c (pySorted key l) = _
    rw [ih]
    rcases hbin c with h0 | h1
    · rw [pyInsert_key_zero h0]
      simp [List.filter_cons, h0]
    · rw [pyInsert_skip h1 (l.filter (fun t => key t == 0)) _
        (fun b hb => by simpa using (List.mem_filter.mp hb).2)]
      rw [pyInsert_front (fun b hb => by
        have := (List.mem_filter.mp hb).2
        rcases hbin b with hb0 | hb1
        · simp [hb0] at this
        · omega)]
      simp [List.filter_cons, h1]

theorem head?_filter_eq (p : CaptionTrack → Bool) (l : List CaptionTrack) :
    (l.filter p).head? = l.find? p := by
  induction l with
  | nil => rfl
  | cons c l ih =>
    by_cases hc : p c
    · simp [List.filter_cons, List.find?, hc]
    · simp only [List.filter_cons, List.find?, hc]
      simp only [Bool.false_eq_true, if_false]
      exact ih

/-- C7: transcript-track selection is the stable ascending sort by the
binary preferred-language score, so the selected (head) track is the first
track whose language is preferred, or the first track overall when none
is. -/
theorem transcript_track_selection (prefer_langs : List String)
    (items : List CaptionTrack) :
    pySorted (score prefer_langs) items
      = items.filter (fun t => score prefer_langs t == 0)
        ++ items.filter (fun t => !(score prefer_langs t == 0))
    ∧ (pySorted (score prefer_langs) items).head?
        = (match items.find? (fun t => decide (t.language ∈ prefer_langs)) with
          | some t => some t
          | Option.none => items.head?) := by
  have hbin : ∀ t, score prefer_langs t = 0 ∨ score prefer_langs t = 1 := by
    intro t
    unfold score
    by_cases h : t.language ∈ prefer_langs <;> simp [h]
  have hpred : (fun t : CaptionTrack => score prefer_langs t == 0)
      = (fun t => decide (t.language ∈ prefer_langs)) := by
    funext t
    unfold score
    by_cases h : t.language ∈ prefer_langs <;> simp [h]
  refine ⟨pySorted_binary _ hbin items, ?_⟩
  rw [pySorted_binary _ hbin items]
  cases hf : items.filter (fun t => score prefer_langs t == 0) with
  | cons t ts =>
    have : (items.filter (fun t => score prefer_langs t == 0)).head?
        = items.find? (fun t => decide (t.language ∈ prefer_langs)) := by
      rw [head?_filter_eq, hpred]
    rw [hf] at this
    simp [← this]
  | nil =>
    have hall : ∀ b ∈ items, ¬ (score prefer_langs b == 0) = true :=
      fun b hb => by
        have := List.filter_eq_nil_iff.mp hf
        exact fun hc => this b hb hc
    have hfind : items.find? (fun t => decide (t.language ∈ prefer_langs)) = Option.none := by
      rw [← hpred]
      exact List.find?_eq_none.mpr hall
    have hother : items.filter (fun t => !(score prefer_langs t == 0)) = items :=
      List.filter_eq_self.mpr (fun b hb => by simpa using hall b hb)
    rw [hfind, hother]
    simp

example : (pySorted (score ["en", "de"])
    [⟨"a", "fr"⟩, ⟨"b", "en"⟩, ⟨"c", "de"⟩]).head? = some ⟨"b", "en"⟩ := by decide
example : (pySorted (score ["en", "de"])
    [⟨"x", "fr"⟩, ⟨"y", "it"⟩]).head? = some ⟨"x", "fr"⟩ := by decide

/-! ### Video-id extraction from a URL (C8) -/

example : video_id_from_url "https://www.youtube.com/watch?v=dQw4w9WgXcQ" = "dQw4w9WgXcQ" := by decide
example : video_id_from_url "https://youtu.be/dQw4w9WgXcQ" = "dQw4w9WgXcQ" := by decide
example : video_id_from_url "https://www.youtube.com/shorts/abcDEF123" = "abcDEF123" := by decide
example : video_id_from_url "dQw4w9WgXcQ" = "dQw4w9WgXcQ" := by decide
example : video_id_from_url "not a video" = "" := by decide

theorem litCaptureMin_eq_some {lit : List Char} {p : Char → Bool} {n : Nat}
    {l v : List Char} (h : litCaptureMin lit p n l = some v) :
    n ≤ v.length ∧ v.all p = true ∧ (lit ++ v) <+: l := by
  unfold litCaptureMin at h
  cases hs : stripLit lit l with
  | none => rw [hs] at h; simp at h
  | some rest =>
    rw [hs] at h
    by_cases hlen : n ≤ (rest.takeWhile p).length
    · simp only [if_pos hlen, Option.some.injEq] at h
      subst h
      refine ⟨hlen, ?_, ?_⟩
      · rw [List.all_eq_true]
        exact fun c hc => List.mem_takeWhile_imp hc
      · rw [stripLit_eq_some hs]
        obtain ⟨u, hu⟩ := List.takeWhile_prefix (l := rest) p
        exact ⟨u, by rw [List.append_assoc, hu]⟩
    · simp [hlen] at h

theorem litCaptureMin_isSome_iff (lit : List Char) (p : Char → Bool) (n : Nat)
    (l : List Char) :
    (litCaptureMin lit p n l).isSome
      ↔ ∃ v : List Char, v.length = n ∧ v.all p = true ∧ (lit ++ v) <+: l := by
  constructor
  · intro h
    obtain ⟨v, hv⟩ := Option.isSome_iff_exists.mp h
    obtain ⟨hlen, hall, hpre⟩ := litCaptureMin_eq_some hv
    refine ⟨v.take n, List.length_take_of_le hlen, ?_, ?_⟩
    · rw [List.all_eq_true] at hall ⊢
      exact fun c hc => hall c (List.take_subset n v hc)
    · refine List.IsPrefix.trans ?_ hpre
      obtain ⟨u, hu⟩ := List.take_prefix n v
      exact ⟨u, by rw [List.append_assoc, hu]⟩
  · rintro ⟨v, hlen, hall, u, hu⟩
    have hl : l = lit ++ (v ++ u) := by rw [← hu]; simp
    rw [hl]
    unfold litCaptureMin
    rw [stripLit_append]
    have hge : n ≤ ((v ++ u).takeWhile p).length := by
      calc n = v.length := hlen.symm
        _ ≤ _ := length_takeWhile_append_ge hall u
    simp [hge]

theorem findMap_litCaptureMin_eq_some {lit : List Char} {p : Char → Bool} {n : Nat}
    {s v : List Char} (h : findMap (litCaptureMin lit p n) s = some v) :
    n ≤ v.length ∧ v.all p = true ∧ (lit ++ v) <:+: s := by
  obtain ⟨t, ht, hft⟩ := findMap_eq_some h
  obtain ⟨hlen, hall, hpre⟩ := litCaptureMin_eq_some hft
  exact ⟨hlen, hall, infix_of_prefix_of_suffix hpre ht⟩

theorem findMap_litCaptureMin_isSome_iff (lit : List Char) (p : Char → Bool) (n : Nat)
    (s : List Char) :
    (findMap (litCaptureMin lit p n) s).isSome
      ↔ ∃ v : List Char, v.length = n ∧ v.all p = true ∧ (lit ++ v) <:+: s := by
  rw [findMap_isSome_iff]
  constructor
  · rintro ⟨t, ht, hf⟩
    obtain ⟨v, hlen, hall, hpre⟩ := (litCaptureMin_isSome_iff lit p n t).mp hf
    exact ⟨v, hlen, hall, infix_of_prefix_of_suffix hpre ht⟩
  · rintro ⟨v, hlen, hall, hinf⟩
    obtain ⟨t, hpre, hsuf⟩ := List.infix_iff_prefix_suffix.mp hinf
    exact ⟨t, hsuf, (litCaptureMin_isSome_iff lit p n t).mpr ⟨v, hlen, hall, hpre⟩⟩

theorem vParamAt_cons (c : Char) (rest : List Char) :
    vParamAt (c :: rest)
      = if c = '?' || c = '&' then litCaptureMin "v=".data isIdChar 6 rest
        else Option.none := rfl

theorem vParamAt_eq_some {l v : List Char} (h : vParamAt l = some v) :
    6 ≤ v.length ∧ v.all isIdChar = true
      ∧ ∃ d, (d = '?' ∨ d = '&') ∧ (d :: 'v' :: '=' :: v) <+: l := by
  cases l with
  | nil => simp [vParamAt] at h
  | cons c rest =>
    rw [vParamAt_cons] at h
    by_cases hc : c = '?' || c = '&'
    · rw [if_pos hc] at h
      obtain ⟨hlen, hall, u, hu⟩ := litCaptureMin_eq_some h
      refine ⟨hlen, hall, c, by simpa using hc, u, ?_⟩
      rw [show (c :: 'v' :: '=' :: v) ++ u = c :: (("v=".data ++ v) ++ u) from rfl, hu]
    · rw [if_neg hc] at h
      simp at h

theorem vParamAt_isSome_iff (l : List Char) :
    (vParamAt l).isSome
      ↔ ∃ d v, (d = '?' ∨ d = '&') ∧ v.length = 6 ∧ v.all isIdChar = true
          ∧ (d :: 'v' :: '=' :: v) <+: l := by
  constructor
  · intro h
    obtain ⟨v, hv⟩ := Option.isSome_iff_exists.mp h
    obtain ⟨hlen, hall, d, hd, u, hu⟩ := vParamAt_eq_some hv
    refine ⟨d, v.take 6, hd, List.length_take_of_le hlen, ?_, ?_⟩
    · rw [List.all_eq_true] at hall ⊢
      exact fun c hc => hall c (List.take_subset 6 v hc)
    · obtain ⟨w, hw⟩ := List.take_prefix 6 v
      refine ⟨w ++ u, ?_⟩
      rw [← hu]
      simp only [List.cons_append]
      rw [← List.append_assoc, hw]
  · rintro ⟨d, v, hd, hlen, hall, u, hu⟩
    have hl : l = d :: ('v' :: '=' :: (v ++ u)) := by
      rw [← hu]; rfl
    rw [hl, vParamAt_cons]
    have hdb : (d = '?' || d = '&') = true := by
      rcases hd with rfl | rfl <;> rfl
    rw [if_pos hdb]
    rw [show ('v' :: '=' :: (v ++ u)) = "v=".data ++ (v ++ u) from rfl]
    exact (litCaptureMin_isSome_iff _ _ _ _).mpr ⟨v, hlen, hall,
      ⟨u, by simp⟩⟩

theorem findMap_vParamAt_eq_some {s v : List Char}
    (h : findMap vParamAt s = some v) :
    6 ≤ v.length ∧ v.all isIdChar = true
      ∧ ∃ d, (d = '?' ∨ d = '&') ∧ (d :: 'v' :: '=' :: v) <:+: s := by
  obtain ⟨t, ht, hft⟩ := findMap_eq_some h
  obtain ⟨hlen, hall, d, hd, hpre⟩ := vParamAt_eq_some hft
  exact ⟨hlen, hall, d, hd, infix_of_prefix_of_suffix hpre ht⟩

theorem findMap_vParamAt_isSome_iff (s : List Char) :
    (findMap vParamAt s).isSome ↔ VParamCond s := by
  rw [findMap_isSome_iff]
  unfold VParamCond
  constructor
  · rintro ⟨t, ht, hf⟩
    obtain ⟨d, v, hd, hlen, hall, hpre⟩ := (vParamAt_isSome_iff t).mp hf
    exact ⟨d, v, hd, hlen, hall, infix_of_prefix_of_suffix hpre ht⟩
  · rintro ⟨d, v, hd, hlen, hall, hinf⟩
    obtain ⟨t, hpre, hsuf⟩ := List.infix_iff_prefix_suffix.mp hinf
    exact ⟨t, hsuf, (vParamAt_isSome_iff t).mpr ⟨d, v, hd, hlen, hall, hpre⟩⟩

/-- C8 counterexample: on `"https://youtu.be/abcdefghij?t=30"` the code
extracts `"abcdefghij"` through its `youtu.be/<id>` step, which the
claim's three-step procedure does not have: that procedure (no `v=`
parameter, no `/shorts/` segment, last path segment `"t=30"` not
ID-shaped) yields the empty string. -/
theorem video_id_from_url_missing_youtu_be_step :
    video_id_from_url "https://youtu.be/abcdefghij?t=30" = "abcdefghij"
    ∧ videoIdFromUrlClaimed "https://youtu.be/abcdefghij?t=30" = "" :=
  ⟨by decide, by decide⟩

/-- C8 (amended): `video_id_from_url` tries, in order, a `?v=`/`&v=`
parameter of 6+ id characters, a `youtu.be/<id>` segment (6+), a
`/shorts/<id>` segment (6+), and the last path segment when it is 6+ id
characters, returning the first success and otherwise the empty string. -/
theorem video_id_from_url_classification (url : String) :
    (VParamCond (pyStrip url.data) →
      ∃ v : List Char, video_id_from_url url = v.asString ∧ 6 ≤ v.length
        ∧ v.all isIdChar = true
        ∧ ∃ d, (d = '?' ∨ d = '&') ∧ (d :: 'v' :: '=' :: v) <:+: pyStrip url.data)
    ∧ (¬ VParamCond (pyStrip url.data) → YoutuBeCond (pyStrip url.data) →
        ∃ v : List Char, video_id_from_url url = v.asString ∧ 6 ≤ v.length
          ∧ v.all isIdChar = true ∧ ("youtu.be/".data ++ v) <:+: pyStrip url.data)
    ∧ (¬ VParamCond (pyStrip url.data) → ¬ YoutuBeCond (pyStrip url.data) →
        ShortsCond (pyStrip url.data) →
        ∃ v : List Char, video_id_from_url url = v.asString ∧ 6 ≤ v.length
          ∧ v.all isIdChar = true ∧ ("/shorts/".data ++ v) <:+: pyStrip url.data)
    ∧ (¬ VParamCond (pyStrip url.data) → ¬ YoutuBeCond (pyStrip url.data) →
        ¬ ShortsCond (pyStrip url.data) →
        video_id_from_url url
          = (match (splitGo [] (pyStrip url.data)).getLast? with
            | some tail =>
              if 6 ≤ tail.length && tail.all isIdChar then tail.asString else ""
            | Option.none => "")) := by
  have hybe : (findMap (litCaptureMin "youtu.be/".data isIdChar 6)
      (pyStrip url.data)).isSome ↔ YoutuBeCond (pyStrip url.data) :=
    findMap_litCaptureMin_isSome_iff _ _ _ _
  have hsh : (findMap (litCaptureMin "/shorts/".data isIdChar 6)
      (pyStrip url.data)).isSome ↔ ShortsCond (pyStrip url.data) :=
    findMap_litCaptureMin_isSome_iff _ _ _ _
  refine ⟨?_, ?_, ?_, ?_⟩
  · intro h1
    obtain ⟨v, hv⟩ := Option.isSome_iff_exists.mp
      ((findMap_vParamAt_isSome_iff _).mpr h1)
    obtain ⟨hlen, hall, d, hd, hinf⟩ := findMap_vParamAt_eq_some hv
    refine ⟨v, ?_, hlen, hall, d, hd, hinf⟩
    simp only [video_id_from_url, hv]
  · intro h1 h2
    obtain ⟨v, hv⟩ := Option.isSome_iff_exists.mp (hybe.mpr h2)
    obtain ⟨hlen, hall, hinf⟩ := findMap_litCaptureMin_eq_some hv
    refine ⟨v, ?_, hlen, hall, hinf⟩
    simp only [video_id_from_url,
      eq_none_of_not_isSome (fun hs => h1 ((findMap_vParamAt_isSome_iff _).mp hs)), hv]
  · intro h1 h2 h3
    obtain ⟨v, hv⟩ := Option.isSome_iff_exists.mp (hsh.mpr h3)
    obtain ⟨hlen, hall, hinf⟩ := findMap_litCaptureMin_eq_some hv
    refine ⟨v, ?_, hlen, hall, hinf⟩
    simp only [video_id_from_url,
      eq_none_of_not_isSome (fun hs => h1 ((findMap_vParamAt_isSome_iff _).mp hs)),
      eq_none_of_not_isSome (fun hs => h2 (hybe.mp hs)), hv]
  · intro h1 h2 h3
    simp only [video_id_from_url,
      eq_none_of_not_isSome (fun hs => h1 ((findMap_vParamAt_isSome_iff _).mp hs)),
      eq_none_of_not_isSome (fun hs => h2 (hybe.mp hs)),
      eq_none_of_not_isSome (fun hs => h3 (hsh.mp hs))]

/-- C8 witness: the amended theorem instantiated at the counterexample
URL: the `youtu.be/` clause fires and produces an id of 6+ id
characters occurring right after `youtu.be/`. -/
theorem video_id_from_url_classification_inst :
    ∃ v : List Char, video_id_from_url "https://youtu.be/abcdefghij?t=30" = v.asString
      ∧ 6 ≤ v.length ∧ v.all isIdChar = true
      ∧ ("youtu.be/".data ++ v) <:+: pyStrip "https://youtu.be/abcdefghij?t=30".data :=
  (video_id_from_url_classification "https://youtu.be/abcdefghij?t=30").2.1
    (fun hc => absurd ((findMap_vParamAt_isSome_iff _).mpr hc) (by decide))
    ⟨"abcdef".data, by decide, by decide,
      ⟨"https://".data, "ghij?t=30".data, by decide⟩⟩

/-! ### CSV round trip (C9) -/

theorem data_asString (s : String) : s.data.asString = s := rfl

theorem csvScan_char {c : Char} (rest : List Char) (b : Bool) (cur : List Char)
    (row : List String) (h1 : ¬ c = ',') (h2 : ¬ c = '"') (h3 : ¬ c = '\r')
    (h4 : ¬ c = '\n') :
    csvScan (c :: rest) false b cur row = csvScan rest false true (cur ++ [c]) row := by
  rw [csvScan] <;> simp_all

theorem csvScan_quoted_char {c : Char} (rest : List Char) (b : Bool) (cur : List Char)
    (row : List String) (h : ¬ c = '"') :
    csvScan (c :: rest) true b cur row = csvScan rest true b (cur ++ [c]) row := by
  rw [csvScan] <;> simp_all

theorem csvScan_quote_close (rest : List Char) (b : Bool) (cur : List Char)
    (row : List String) (h : rest.head? ≠ some '"') :
    csvScan ('"' :: rest) true b cur row = csvScan rest false b cur row := by
  cases rest with
  | nil => rfl
  | cons c r =>
    have hc : ¬ c = '"' := fun hcq => h (by simp [hcq])
    rw [csvScan]
    simp_all

theorem csvScan_quote_open (rest : List Char) (b : Bool) (row : List String) :
    csvScan ('"' :: rest) false b [] row = csvScan rest true true [] row := by
  rw [csvScan]
  simp_all

/-- Scanning a run of non-special characters outside quotes appends them
to the current field. -/
theorem csvScan_run (s : List Char)
    (hspec : ∀ c ∈ s, ¬(c = ',' ∨ c = '"' ∨ c = '\r' ∨ c = '\n')) :
    ∀ (rest : List Char) (b : Bool) (cur : List Char) (row : List String),
    csvScan (s ++ rest) false b cur row
      = csvScan rest false (b || !s.isEmpty) (cur ++ s) row := by
  induction s with
  | nil => intro rest b cur row; simp
  | cons c s ih =>
    intro rest b cur row
    have hc := hspec c (by simp)
    push_neg at hc
    rw [List.cons_append, csvScan_char _ _ _ _ hc.1 hc.2.1 hc.2.2.1 hc.2.2.2]
    rw [ih (fun d hd => hspec d (by simp [hd])) rest true (cur ++ [c]) row]
    simp

/-- Scanning the escaped body of a quoted field followed by the closing
quote appends the original text to the current field and leaves the quoted
state. -/
theorem csvScan_quoted_run (s : List Char) :
    ∀ (rest : List Char) (b : Bool) (cur : List Char) (row : List String),
    rest.head? ≠ some '"' →
    csvScan (csvEscape s ++ ('"' :: rest)) true b cur row
      = csvScan rest false b (cur ++ s) row := by
  induction s with
  | nil =>
    intro rest b cur row h
    simp only [csvEscape, List.nil_append]
    rw [csvScan_quote_close rest b cur row h]
    simp
  | cons c s ih =>
    intro rest b cur row h
    by_cases hc : c = '"'
    · subst hc
      rw [show csvEscape ('"' :: s) = '"' :: '"' :: csvEscape s from rfl]
      rw [List.cons_append, List.cons_append]
      rw [show csvScan ('"' :: '"' :: (csvEscape s ++ ('"' :: rest))) true b cur row
          = csvScan (csvEscape s ++ ('"' :: rest)) true b (cur ++ ['"']) row from rfl]
      rw [ih rest b (cur ++ ['"']) row h]
      simp
    · simp only [csvEscape, if_neg hc]
      rw [List.cons_append, csvScan_quoted_char _ _ _ _ hc]
      rw [ih rest b (cur ++ [c]) row h]
      simp

/-- Scanning one serialized field (from a fresh field position) yields
that field's text back. -/
theorem csvScan_field (s : String) (rest : List Char) (b : Bool) (row : List String)
    (hrest : rest.head? ≠ some '"') :
    csvScan (csvField s ++ rest) false b [] row
      = csvScan rest false (b || csvNeedsQuote s.data || !s.data.isEmpty) s.data row := by
  unfold csvField
  by_cases hq : csvNeedsQuote s.data
  · rw [if_pos hq]
    rw [show ('"' :: (csvEscape s.data ++ ['"'])) ++ rest
        = '"' :: (csvEscape s.data ++ ('"' :: rest)) by simp]
    rw [csvScan_quote_open]
    rw [csvScan_quoted_run s.data rest true [] row hrest]
    simp [hq]
  · rw [if_neg hq]
    have hspec : ∀ c ∈ s.data, ¬(c = ',' ∨ c = '"' ∨ c = '\r' ∨ c = '\n') := by
      intro c hcmem hcon
      apply hq
      unfold csvNeedsQuote
      rw [List.any_eq_true]
      exact ⟨c, hcmem, by rcases hcon with h | h | h | h <;> simp [h]⟩
    rw [csvScan_run s.data hspec rest b [] row]
    simp [hq]

theorem csvScan_comma (rest : List Char) (b : Bool) (cur : List Char)
    (row : List String) :
    csvScan (',' :: rest) false b cur row
      = csvScan rest false true [] (row ++ [cur.asString]) := rfl

theorem csvScan_crlf (rest : List Char) (cur : List Char) (row : List String) :
    csvScan ('\r' :: '\n' :: rest) false true cur row
      = (row ++ [cur.asString]) :: csvScan rest false false [] [] := rfl

/-- Scanning the remaining fields of a row (some field already finished,
so the row is started) emits the whole row at the terminator. -/
theorem csvScan_row_tail : ∀ (fs : List String) (f : String) (row : List String)
    (rest : List Char),
    csvScan (List.intercalate [','] ((f :: fs).map csvField)
        ++ ('\r' :: '\n' :: rest)) false true [] row
      = (row ++ f :: fs) :: csvScan rest false false [] [] := by
  intro fs
  induction fs with
  | nil =>
    intro f row rest
    simp only [List.map_cons, List.map_nil]
    rw [show List.intercalate [','] [csvField f] = csvField f by
      simp [List.intercalate]]
    rw [csvScan_field f _ true row (by simp)]
    simp only [Bool.true_or]
    rw [csvScan_crlf, data_asString]
  | cons g gs ih =>
    intro f row rest
    simp only [List.map_cons]
    rw [show List.intercalate [','] (csvField f :: csvField g :: gs.map csvField)
        = csvField f ++ [','] ++ List.intercalate [','] (csvField g :: gs.map csvField) by
      simp [List.intercalate, List.intersperse]]
    rw [show (csvField f ++ [','] ++ List.intercalate [','] (csvField g :: gs.map csvField))
          ++ ('\r' :: '\n' :: rest)
        = csvField f ++ (',' ::
            (List.intercalate [','] (csvField g :: gs.map csvField)
              ++ ('\r' :: '\n' :: rest))) by simp]
    rw [csvScan_field f _ true row (by simp)]
    rw [csvScan_comma, data_asString]
    have := ih g (row ++ [f]) rest
    simp only [List.map_cons] at this
    rw [this]
    simp

/-- Scanning one full serialized row (two or more fields) from the fresh
state emits exactly that row's fields. -/
theorem csvScan_full_row (fields : List String) (h : 2 ≤ fields.length)
    (rest : List Char) :
    csvScan (csvRow fields ++ rest) false false [] []
      = fields :: csvScan rest false false [] [] := by
  match fields, h with
  | f1 :: f2 :: fs, _ =>
    unfold csvRow
    simp only [List.map_cons]
    rw [show List.intercalate [','] (csvField f1 :: csvField f2 :: fs.map csvField)
        = csvField f1 ++ [','] ++ List.intercalate [','] (csvField f2 :: fs.map csvField) by
      simp [List.intercalate, List.intersperse]]
    rw [show (csvField f1 ++ [','] ++ List.intercalate [','] (csvField f2 :: fs.map csvField)
          ++ ['\r', '\n']) ++ rest
        = csvField f1 ++ (',' ::
            (List.intercalate [','] (csvField f2 :: fs.map csvField)
              ++ ('\r' :: '\n' :: rest))) by simp]
    rw [csvScan_field f1 _ false [] (by simp)]
    rw [csvScan_comma, data_asString]
    have := csvScan_row_tail fs f2 [f1] rest
    simp only [List.map_cons] at this
    simp only [List.nil_append]
    rw [this]
    simp

/-- Parsing the generated CSV text recovers the header row and every
record's six field values. -/
theorem csvParse_rows_to_csv (records : List CsvRecord) :
    csvParse (rows_to_csv records) = csvHeaders :: records.map CsvRecord.fields := by
  unfold csvParse rows_to_csv
  rw [csvScan_full_row csvHeaders (by simp [csvHeaders]) _]
  congr 1
  induction records with
  | nil => rfl
  | cons r rs ih =>
    simp only [List.map_cons, List.flatten_cons]
    rw [csvScan_full_row r.fields (by simp [CsvRecord.fields]) _]
    rw [ih]

/-- C9: the CSV writer emits exactly the fixed header line followed by one
row per record in order, absent fields rendered as empty strings; parsing
the produced text back yields the same six field values for every record,
with an absent/empty thumbnail read back as the empty string (no
`None`/null marker). -/
theorem rows_to_csv_round_trip (records : List CsvRecord) :
    (∃ rest, rows_to_csv records
        = "video_url,title,thumbnail_url,view_count,posted_date,transcript".data
          ++ '\r' :: '\n' :: rest)
    ∧ csvParse (rows_to_csv records) = csvHeaders :: records.map CsvRecord.fields
    ∧ (∀ r ∈ records, r.thumbnail_url = Option.none →
        r.fields.get? 2 = some "") := by
  refine ⟨⟨(records.map (fun r => csvRow r.fields)).flatten, ?_⟩,
    csvParse_rows_to_csv records, ?_⟩
  · unfold rows_to_csv
    rw [show csvRow csvHeaders
        = "video_url,title,thumbnail_url,view_count,posted_date,transcript".data
          ++ ['\r', '\n'] by decide]
    simp
  · intro r _ hthumb
    simp [CsvRecord.fields, hthumb]

example : csvParse (rows_to_csv [recEx])
    = [csvHeaders,
      ["https://www.youtube.com/watch?v=abc123def45", "A, \"quoted\"\ntitle",
        "", "42", "2024-05-06", "line1\nline2"]] := by decide

/-- C9 witness: the round-trip theorem instantiated at a concrete record
with an absent thumbnail and fields requiring quoting. -/
theorem rows_to_csv_round_trip_inst :
    csvParse (rows_to_csv [recEx]) = csvHeaders :: [recEx].map CsvRecord.fields
    ∧ recEx.fields.get? 2 = some "" :=
  ⟨(rows_to_csv_round_trip [recEx]).2.1,
    (rows_to_csv_round_trip [recEx]).2.2 recEx (by simp) rfl⟩

end YoutubeExporter
